import Mathlib

/-!
Shallow embedding of the stakk repository (change-graph builder, submission
pipeline, stack-comment codec), with theorems checking the specification's
claims against the embedded code.

Conventions used throughout:
* Rust `String`/`&str` is Lean `String`; character-level operations are
  modelled on `List Char` (`String.data`).  Byte indices returned by Rust's
  `str::find` are modelled as character indices; extracted substrings agree
  because all slicing in the source happens at occurrence boundaries of the
  searched ASCII patterns.
* `HashMap` is an association list with insert-replaces-key semantics;
  `HashSet` is a `Finset String`.
* Fallible Rust code returning `Result` becomes `Except`; `Option` stays
  `Option`.  `async` functions are sequentialised; the concurrently issued
  batches in the source (`join_all`) are pure per-element calls recombined
  in the caller's original order, which the embedding computes directly.
* External ports (the jj subprocess, the forge API) are oracle functions
  passed as arguments.  The external crates `base64` (STANDARD engine) and
  `serde_json` are modelled by executable encoders/decoders defined below.
* Pagination of `get_branch_changes_paginated` (pages of 100 with a resume
  cursor) is modelled by handing the traversal the concatenation of all
  pages: the per-commit logic of the source's inner loop is independent of
  page boundaries.
-/

namespace Stakk

/-- Drop one carriage return that immediately precedes a split newline
(the `\r\n` handling of `core::str::Lines`). -/
def stripTrailingCR (acc : List Char) : List Char :=
  if acc.getLast? = some '\r' then acc.dropLast else acc

/-- Worker for `rustLinesChars`: `acc` is the line being accumulated. -/
def rustLinesAux : List Char → List Char → List (List Char)
  | acc, [] => [acc]
  | acc, '\n' :: rest =>
    stripTrailingCR acc :: (match rest with
      | [] => []
      | r :: rs => rustLinesAux [] (r :: rs))
  | acc, c :: rest => rustLinesAux (acc ++ [c]) rest

/-- Model of Rust `str::lines`: split at newlines, removing a carriage
return that immediately precedes a split newline; no trailing empty line;
the empty string yields no lines. -/
def rustLinesChars : List Char → List (List Char)
  | [] => []
  | c :: cs => rustLinesAux [] (c :: cs)

/-- Rust `s.lines()` on a `String`. -/
def rustLines (s : String) : List String :=
  (rustLinesChars s.data).map (fun cs => String.mk cs)

/-- Rust `s.lines().next()`. -/
def linesNext (s : String) : Option String :=
  (rustLines s).head?

/-- Model of Rust `str::trim` (the whitespace characters that occur in this
development are ASCII, where Lean's `Char.isWhitespace` and Rust's
`char::is_whitespace` agree). -/
def rustTrim (s : String) : String :=
  ⟨((s.data.dropWhile Char.isWhitespace).reverse.dropWhile Char.isWhitespace).reverse⟩

/-- First index at which `pat` occurs as a contiguous substring, model of
Rust `str::find` for a literal pattern (index counted in characters, see the
module conventions). -/
def findSubstrIdx (pat : List Char) : List Char → Option Nat
  | [] => if pat = [] then some 0 else none
  | c :: rest =>
    if pat.isPrefixOf (c :: rest) then some 0
    else (findSubstrIdx pat rest).map (· + 1)

end Stakk

-- ---------------------------------------------------------------------------
-- UTF-8 (model of Rust String::as_bytes / std::str::from_utf8)
-- ---------------------------------------------------------------------------

namespace Stakk

/-- UTF-8 encoding of one Unicode scalar value. -/
def utf8EncodeChar (n : Nat) : List Nat :=
  if n < 0x80 then [n]
  else if n < 0x800 then [0xC0 + n / 64, 0x80 + n % 64]
  else if n < 0x10000 then [0xE0 + n / 4096, 0x80 + n / 64 % 64, 0x80 + n % 64]
  else [0xF0 + n / 262144, 0x80 + n / 4096 % 64, 0x80 + n / 64 % 64, 0x80 + n % 64]

/-- The UTF-8 bytes of a string (Rust `str::as_bytes`). -/
def utf8Encode (cs : List Char) : List Nat :=
  (cs.map (fun c => utf8EncodeChar c.toNat)).flatten

/-- Continuation byte test. -/
def utf8IsCont (b : Nat) : Bool :=
  decide (0x80 ≤ b ∧ b < 0xC0)

/-- UTF-8 decoding (Rust `std::str::from_utf8`): rejects bad leading bytes,
truncated sequences, overlong encodings, surrogates and values above
U+10FFFF. -/
def utf8Decode : List Nat → Option (List Char)
  | [] => some []
  | b :: bs =>
    if b < 0x80 then
      (utf8Decode bs).map (fun tl => Char.ofNat b :: tl)
    else if b < 0xC2 then none
    else
      match bs with
      | [] => none
      | b2 :: bs2 =>
        if b < 0xE0 then
          if utf8IsCont b2 then
            (utf8Decode bs2).map (fun tl => Char.ofNat ((b - 0xC0) * 64 + (b2 - 0x80)) :: tl)
          else none
        else
          match bs2 with
          | [] => none
          | b3 :: bs3 =>
            if b < 0xF0 then
              if utf8IsCont b2 ∧ utf8IsCont b3 then
                let n := (b - 0xE0) * 4096 + (b2 - 0x80) * 64 + (b3 - 0x80)
                if 0x800 ≤ n ∧ ¬(0xD800 ≤ n ∧ n < 0xE000) then
                  (utf8Decode bs3).map (fun tl => Char.ofNat n :: tl)
                else none
              else none
            else
              match bs3 with
              | [] => none
              | b4 :: bs4 =>
                if b < 0xF5 then
                  if utf8IsCont b2 ∧ utf8IsCont b3 ∧ utf8IsCont b4 then
                    let n := (b - 0xF0) * 262144 + (b2 - 0x80) * 4096 +
                      (b3 - 0x80) * 64 + (b4 - 0x80)
                    if 0x10000 ≤ n ∧ n < 0x110000 then
                      (utf8Decode bs4).map (fun tl => Char.ofNat n :: tl)
                    else none
                  else none
                else none

end Stakk

-- ---------------------------------------------------------------------------
-- base64 (model of the `base64` crate's STANDARD engine: RFC 4648 alphabet,
-- padding required, canonical trailing bits)
-- ---------------------------------------------------------------------------

namespace Stakk

/-- The standard base64 alphabet, index to character. -/
def b64Char (n : Nat) : Char :=
  if n < 26 then Char.ofNat (65 + n)
  else if n < 52 then Char.ofNat (97 + (n - 26))
  else if n < 62 then Char.ofNat (48 + (n - 52))
  else if n = 62 then '+'
  else '/'

/-- The standard base64 alphabet, character to index. -/
def b64Val (c : Char) : Option Nat :=
  let n := c.toNat
  if 65 ≤ n ∧ n ≤ 90 then some (n - 65)
  else if 97 ≤ n ∧ n ≤ 122 then some (n - 97 + 26)
  else if 48 ≤ n ∧ n ≤ 57 then some (n - 48 + 52)
  else if n = 43 then some 62
  else if n = 47 then some 63
  else none

/-- `BASE64.encode` on a byte sequence. -/
def base64Encode : List Nat → List Char
  | [] => []
  | [a] => [b64Char (a / 4), b64Char (a % 4 * 16), '=', '=']
  | [a, b] => [b64Char (a / 4), b64Char (a % 4 * 16 + b / 16), b64Char (b % 16 * 4), '=']
  | a :: b :: c :: rest =>
    b64Char (a / 4) :: b64Char (a % 4 * 16 + b / 16) ::
      b64Char (b % 16 * 4 + c / 64) :: b64Char (c % 64) :: base64Encode rest

/-- `BASE64.decode`: strict canonical decoding (invalid characters, bad
length, bad padding or non-zero discarded trailing bits all fail). -/
def base64Decode : List Char → Option (List Nat)
  | [] => some []
  | c1 :: c2 :: c3 :: c4 :: rest =>
    match b64Val c1, b64Val c2 with
    | some v1, some v2 =>
      if c3 = '=' then
        if c4 = '=' ∧ rest = [] ∧ v2 % 16 = 0 then some [v1 * 4 + v2 / 16] else none
      else
        match b64Val c3 with
        | some v3 =>
          if c4 = '=' then
            if rest = [] ∧ v3 % 4 = 0 then
              some [v1 * 4 + v2 / 16, v2 % 16 * 16 + v3 / 4]
            else none
          else
            match b64Val c4 with
            | some v4 =>
              (base64Decode rest).map
                (fun tl => (v1 * 4 + v2 / 16) :: (v2 % 16 * 16 + v3 / 4) :: (v3 % 4 * 64 + v4) :: tl)
            | none => none
        | none => none
    | _, _ => none
  | _ => none

end Stakk

-- ---------------------------------------------------------------------------
-- JSON (model of serde_json: compact serializer output and a strict parser).
-- The parser covers the grammar serde_json accepts on the inputs relevant
-- here; JSON numbers are modelled as optionally signed integers (fraction /
-- exponent forms and duplicate object fields are not modelled, every stage
-- simply fails on them, matching the parse-failure-means-None behaviour).
-- ---------------------------------------------------------------------------

namespace Stakk

/-- A parsed JSON value. -/
inductive Json where
  | null
  | bool (b : Bool)
  | num (neg : Bool) (n : Nat)
  | str (s : List Char)
  | arr (elems : List Json)
  | obj (members : List (List Char × Json))

/-- Lowercase hexadecimal digit (serde_json's escape table). -/
def hexDigitChar (n : Nat) : Char :=
  if n < 10 then Char.ofNat (48 + n) else Char.ofNat (87 + n)

/-- serde_json's string escaping: quote, backslash, and control characters
(`\b \t \n \f \r`, otherwise `\u00xx`). -/
def escapeChar (c : Char) : List Char :=
  if c = '"' then ['\\', '"']
  else if c = '\\' then ['\\', '\\']
  else if c.toNat = 8 then ['\\', 'b']
  else if c.toNat = 9 then ['\\', 't']
  else if c.toNat = 10 then ['\\', 'n']
  else if c.toNat = 12 then ['\\', 'f']
  else if c.toNat = 13 then ['\\', 'r']
  else if c.toNat < 32 then
    ['\\', 'u', '0', '0', hexDigitChar (c.toNat / 16), hexDigitChar (c.toNat % 16)]
  else [c]

/-- Escape a whole string body. -/
def escapeString (cs : List Char) : List Char :=
  (cs.map escapeChar).flatten

/-- Worker for `natDecimal`; the fuel exceeds the digit count. -/
def natDecimalAux : Nat → Nat → List Char → List Char
  | 0, _, acc => acc
  | fuel + 1, n, acc =>
    let d := Char.ofNat (48 + n % 10)
    if n < 10 then d :: acc
    else natDecimalAux fuel (n / 10) (d :: acc)

/-- Decimal representation of a natural number. -/
def natDecimal (n : Nat) : List Char :=
  natDecimalAux (n + 1) n []

/-- JSON whitespace skipping. -/
def skipWs (cs : List Char) : List Char :=
  cs.dropWhile (fun c => c = ' ' ∨ c = '\t' ∨ c = '\n' ∨ c = '\r')

/-- Hexadecimal digit value (both cases). -/
def hexVal (c : Char) : Option Nat :=
  let n := c.toNat
  if 48 ≤ n ∧ n ≤ 57 then some (n - 48)
  else if 97 ≤ n ∧ n ≤ 102 then some (n - 97 + 10)
  else if 65 ≤ n ∧ n ≤ 70 then some (n - 65 + 10)
  else none

/-- Decimal digit value. -/
def digitVal (c : Char) : Option Nat :=
  if 48 ≤ c.toNat ∧ c.toNat ≤ 57 then some (c.toNat - 48) else none

/-- Consume a run of decimal digits. -/
def parseDigits : List Char → Nat → Nat × List Char
  | c :: rest, acc =>
    match digitVal c with
    | some d => parseDigits rest (acc * 10 + d)
    | none => (acc, c :: rest)
  | [], acc => (acc, [])

/-- Parse the body of a JSON string after the opening quote, up to and
including the closing quote. -/
def parseStringBody : List Char → Option (List Char × List Char)
  | [] => none
  | c :: rest =>
    if c = '"' then some ([], rest)
    else if c = '\\' then
      match rest with
      | [] => none
      | e :: rest2 =>
        if e = '"' then (parseStringBody rest2).map (fun p => ('"' :: p.1, p.2))
        else if e = '\\' then (parseStringBody rest2).map (fun p => ('\\' :: p.1, p.2))
        else if e = '/' then (parseStringBody rest2).map (fun p => ('/' :: p.1, p.2))
        else if e = 'b' then (parseStringBody rest2).map (fun p => (Char.ofNat 8 :: p.1, p.2))
        else if e = 'f' then (parseStringBody rest2).map (fun p => (Char.ofNat 12 :: p.1, p.2))
        else if e = 'n' then (parseStringBody rest2).map (fun p => ('\n' :: p.1, p.2))
        else if e = 'r' then (parseStringBody rest2).map (fun p => (Char.ofNat 13 :: p.1, p.2))
        else if e = 't' then (parseStringBody rest2).map (fun p => ('\t' :: p.1, p.2))
        else if e = 'u' then
          match rest2 with
          | h1 :: h2 :: h3 :: h4 :: rest3 =>
            match hexVal h1, hexVal h2, hexVal h3, hexVal h4 with
            | some d1, some d2, some d3, some d4 =>
              let n := d1 * 4096 + d2 * 256 + d3 * 16 + d4
              if 0xD800 ≤ n ∧ n < 0xE000 then none
              else (parseStringBody rest3).map (fun p => (Char.ofNat n :: p.1, p.2))
            | _, _, _, _ => none
          | _ => none
        else none
    else if 0x20 ≤ c.toNat then (parseStringBody rest).map (fun p => (c :: p.1, p.2))
    else none

/-- Parse a number body (after an optional minus sign). -/
def parseNumBody (neg : Bool) : List Char → Option (Json × List Char)
  | c :: rest =>
    match digitVal c with
    | some d =>
      let p := parseDigits rest d
      some (.num neg p.1, p.2)
    | none => none
  | [] => none

mutual

/-- Fuel-indexed recursive-descent JSON value parser.  `parseJsonDoc` calls
it with fuel `input length + 1`, which always suffices since at least one
character is consumed before each recursive step. -/
def parseValue : Nat → List Char → Option (Json × List Char)
  | 0, _ => none
  | fuel + 1, cs =>
    match skipWs cs with
    | [] => none
    | c :: rest =>
      if c = '\x7b' then
        match skipWs rest with
        | [] => (parseMembers fuel rest).map (fun p => (.obj p.1, p.2))
        | c2 :: rest2 =>
          if c2 = '\x7d' then some (.obj [], rest2)
          else (parseMembers fuel rest).map (fun p => (.obj p.1, p.2))
      else if c = '[' then
        match skipWs rest with
        | [] => (parseElems fuel rest).map (fun p => (.arr p.1, p.2))
        | c2 :: rest2 =>
          if c2 = ']' then some (.arr [], rest2)
          else (parseElems fuel rest).map (fun p => (.arr p.1, p.2))
      else if c = '"' then (parseStringBody rest).map (fun p => (.str p.1, p.2))
      else if c = 't' then
        if rest.take 3 = ['r', 'u', 'e'] then some (.bool true, rest.drop 3) else none
      else if c = 'f' then
        if rest.take 4 = ['a', 'l', 's', 'e'] then some (.bool false, rest.drop 4)
        else none
      else if c = 'n' then
        if rest.take 3 = ['u', 'l', 'l'] then some (.null, rest.drop 3) else none
      else if c = '-' then parseNumBody true rest
      else parseNumBody false (c :: rest)

/-- Parse the members of a JSON object (positioned after `\x7b`), up to and
including the closing brace. -/
def parseMembers : Nat → List Char → Option (List (List Char × Json) × List Char)
  | 0, _ => none
  | fuel + 1, cs =>
    match skipWs cs with
    | [] => none
    | c :: rest =>
      if c = '"' then
        match parseStringBody rest with
        | some (key, rest1) =>
          match skipWs rest1 with
          | [] => none
          | c2 :: rest2 =>
            if c2 = ':' then
              match parseValue fuel rest2 with
              | some (v, rest3) =>
                match skipWs rest3 with
                | [] => none
                | c3 :: rest4 =>
                  if c3 = ',' then
                    (parseMembers fuel rest4).map (fun p => ((key, v) :: p.1, p.2))
                  else if c3 = '\x7d' then some ([(key, v)], rest4)
                  else none
              | none => none
            else none
        | none => none
      else none

/-- Parse the elements of a JSON array (positioned after `[`), up to and
including the closing bracket. -/
def parseElems : Nat → List Char → Option (List Json × List Char)
  | 0, _ => none
  | fuel + 1, cs =>
    match parseValue fuel cs with
    | some (v, rest) =>
      match skipWs rest with
      | [] => none
      | c :: rest2 =>
        if c = ',' then (parseElems fuel rest2).map (fun p => (v :: p.1, p.2))
        else if c = ']' then some ([v], rest2)
        else none
    | none => none

end

/-- Object member lookup by key (serde's derived deserializer reads each
required field; the first occurrence wins in this model). -/
def jLookup (ms : List (List Char × Json)) (key : List Char) : Option Json :=
  (ms.find? (fun p => p.1 = key)).map (·.2)

/-- `serde_json::from_str` up to the JSON-value level: one value, then only
trailing whitespace. -/
def parseJsonDoc (cs : List Char) : Option Json :=
  match parseValue (cs.length + 1) cs with
  | some (v, rest) => if skipWs rest = [] then some v else none
  | none => none

end Stakk

-- ---------------------------------------------------------------------------
-- jj data model (src/src/jj/types.rs)
-- ---------------------------------------------------------------------------

namespace Stakk

/-- A processed bookmark (`jj::types::Bookmark`). -/
structure Bookmark where
  name : String
  commit_id : String
  change_id : String
  synced : Bool
deriving DecidableEq, Repr

/-- A processed log entry (`jj::types::LogEntry`); `author_name` flattens the
`author: Signature` field to the one component the graph code reads. -/
structure LogEntry where
  commit_id : String
  change_id : String
  description : String
  parents : List String
  author_name : String
  local_bookmark_names : List String
  remote_bookmark_names : List String
deriving DecidableEq, Repr

/-- Errors of the embedded code paths (`error.rs` / `jj/mod.rs`): only the
variants the embedded functions can produce are modelled; the jj subprocess
oracle is total, so its transport errors do not arise. -/
inductive JjError where
  | commandFailed (stderr : String)
  | parseError (context : String)
  | notFound
  | noDefaultBranch (candidates : List String)
deriving DecidableEq, Repr

/-- `StakkError`, restricted to the variant reachable in the embedded graph
code (`StakkError::Graph`). -/
inductive StakkError where
  | graph (message : String)
deriving DecidableEq, Repr

end Stakk

-- ---------------------------------------------------------------------------
-- Graph data model (src/src/graph/types.rs)
-- ---------------------------------------------------------------------------

namespace Stakk

/-- `graph::types::SegmentCommit`. -/
structure SegmentCommit where
  commit_id : String
  change_id : String
  description : String
  author_name : String
deriving DecidableEq, Repr

/-- `graph::types::BookmarkSegment`. -/
structure BookmarkSegment where
  bookmark_names : List String
  change_id : String
  commits : List SegmentCommit
deriving DecidableEq, Repr

/-- `graph::types::BranchStack`. -/
structure BranchStack where
  segments : List BookmarkSegment
deriving DecidableEq, Repr

/-- Association-list insert with replace-on-same-key, the `HashMap::insert`
model. -/
def mapInsert {α : Type} (m : List (String × α)) (k : String) (v : α) :
    List (String × α) :=
  (k, v) :: m.filter (fun p => p.1 ≠ k)

/-- Association-list lookup, the `HashMap::get` model. -/
def mapLookup {α : Type} (m : List (String × α)) (k : String) : Option α :=
  (m.find? (fun p => p.1 = k)).map (·.2)

/-- `graph::types::ChangeGraph`. -/
structure ChangeGraph where
  adjacency_list : List (String × String)
  stack_leaves : Finset String
  stack_roots : Finset String
  segments : List (String × BookmarkSegment)
  tainted_change_ids : Finset String
  excluded_bookmark_count : Nat
  «stacks» : List BranchStack
deriving DecidableEq

end Stakk

-- ---------------------------------------------------------------------------
-- Graph construction (src/src/graph/mod.rs)
-- ---------------------------------------------------------------------------

namespace Stakk

/-- `graph::TraversalResult`. -/
structure TraversalResult where
  segments : List BookmarkSegment
  already_seen_change_id : Option String
  excluded : Bool
deriving DecidableEq, Repr

/-- Build a `SegmentCommit` from a log entry, as in the `seg.commits.push`
site of `traverse_and_discover_segments`. -/
def mkSegmentCommit (change : LogEntry) : SegmentCommit :=
  ⟨change.commit_id, change.change_id, change.description, change.author_name⟩

/-- The loop body of `traverse_and_discover_segments`, over the concatenated
pages of `trunk()..bookmark`.  State mirrors the Rust locals: accumulated
`segments`, the open `current_segment`, the `seen_change_ids` list and the
mutable `tainted_change_ids` set. -/
def traverseLoop (bookmark_name : String) (fully_collected : Finset String)
    (user_bookmark_names : Finset String) :
    List LogEntry → List BookmarkSegment → Option BookmarkSegment →
    List String → Finset String →
    Except StakkError (TraversalResult × Finset String)
  | [], segments, current, _seen, tainted =>
    -- End of the revset: push the final segment.
    .ok (⟨segments ++ current.toList, none, false⟩, tainted)
  | change :: rest, segments, current, seen, tainted =>
    let seen' := seen ++ [change.change_id]
    if change.parents.length > 1 ∨ change.change_id ∈ tainted then
      -- Merge commit or already-tainted change: taint everything seen.
      .ok (⟨[], none, true⟩, tainted ∪ seen'.toFinset)
    else
      let user_bookmarks :=
        change.local_bookmark_names.filter (fun n => n ∈ user_bookmark_names)
      if user_bookmarks.isEmpty then
        match current with
        | some seg =>
          traverseLoop bookmark_name fully_collected user_bookmark_names rest
            segments
            (some { seg with commits := seg.commits ++ [mkSegmentCommit change] })
            seen' tainted
        | none =>
          .error (.graph ("encountered change " ++ change.change_id ++
            " before any bookmark while traversing from bookmark '" ++
            bookmark_name ++ "'"))
      else
        let segments' := segments ++ current.toList
        if user_bookmarks.any (fun n => n ∈ fully_collected) then
          .ok (⟨segments', some change.change_id, false⟩, tainted)
        else
          traverseLoop bookmark_name fully_collected user_bookmark_names rest
            segments'
            (some ⟨user_bookmarks, change.change_id, [mkSegmentCommit change]⟩)
            seen' tainted

/-- `traverse_and_discover_segments`, with the jj port's concatenated log
for `trunk()..bookmark.commit_id` passed as `changes`. -/
def traverse_and_discover_segments (bookmark : Bookmark)
    (changes : List LogEntry) (fully_collected : Finset String)
    (tainted_change_ids : Finset String) (user_bookmark_names : Finset String) :
    Except StakkError (TraversalResult × Finset String) :=
  traverseLoop bookmark.name fully_collected user_bookmark_names changes
    [] none [] tainted_change_ids

/-- The `child -> parent` edges between consecutive segments
(`result.segments.windows(2)`). -/
def windowsEdges : List BookmarkSegment → List (String × String)
  | s1 :: s2 :: rest => (s1.change_id, s2.change_id) :: windowsEdges (s2 :: rest)
  | _ => []

/-- The identifying view of a segment: its change id and bookmark names
(the commits list does not affect graph structure). -/
def segView (s : BookmarkSegment) : String × List String :=
  (s.change_id, s.bookmark_names)

/-- Mutable state of the `build_change_graph` bookmark loop. -/
structure BuildState where
  fully_collected : Finset String
  adjacency_list : List (String × String)
  segments : List (String × BookmarkSegment)
  stack_roots : Finset String
  tainted_change_ids : Finset String
  excluded_bookmark_count : Nat
deriving DecidableEq

/-- One non-excluded traversal's updates to the build state (the store /
adjacency / bridge-or-root / segment-insert block of the bookmark loop). -/
def applyTraversal (st : BuildState) (result : TraversalResult)
    (tainted' : Finset String) : BuildState :=
  let fully_collected' := st.fully_collected ∪
    (result.segments.flatMap (·.bookmark_names)).toFinset
  let adj1 := (windowsEdges result.segments).foldl
    (fun m e => mapInsert m e.1 e.2) st.adjacency_list
  let adj2 := match result.already_seen_change_id, result.segments.getLast? with
    | some seen_id, some last_seg => mapInsert adj1 last_seg.change_id seen_id
    | _, _ => adj1
  let roots' := match result.already_seen_change_id, result.segments.getLast? with
    | none, some last_seg => insert last_seg.change_id st.stack_roots
    | _, _ => st.stack_roots
  let segments' := result.segments.foldl
    (fun m seg => mapInsert m seg.change_id seg) st.segments
  { fully_collected := fully_collected', adjacency_list := adj2,
    segments := segments', stack_roots := roots',
    tainted_change_ids := tainted',
    excluded_bookmark_count := st.excluded_bookmark_count }

/-- The bookmark loop of `build_change_graph`.  `vcsLog` is the jj port:
the concatenated `trunk()..commit_id` log for a given commit id. -/
def buildLoop (vcsLog : String → List LogEntry)
    (user_bookmark_names : Finset String) :
    List Bookmark → BuildState → Except StakkError BuildState
  | [], st => .ok st
  | bookmark :: rest, st =>
    if bookmark.name ∈ st.fully_collected then
      buildLoop vcsLog user_bookmark_names rest st
    else
      match traverse_and_discover_segments bookmark (vcsLog bookmark.commit_id)
          st.fully_collected st.tainted_change_ids user_bookmark_names with
      | .error e => .error e
      | .ok (result, tainted') =>
        if result.excluded then
          buildLoop vcsLog user_bookmark_names rest
            { st with tainted_change_ids := tainted',
                      excluded_bookmark_count := st.excluded_bookmark_count + 1 }
        else
          buildLoop vcsLog user_bookmark_names rest (applyTraversal st result tainted')

/-- The parent-walk of `group_segments_into_stacks`; the Rust `while let`
terminates on the acyclic adjacency produced by the builder, modelled here
with fuel one larger than the number of edges (an acyclic walk cannot be
longer). -/
def walkParents (adjacency_list : List (String × String)) :
    Nat → String → List String
  | 0, _ => []
  | fuel + 1, current =>
    match mapLookup adjacency_list current with
    | some parent => parent :: walkParents adjacency_list fuel parent
    | none => []

/-- `group_segments_into_stacks`. -/
def group_segments_into_stacks (stack_leaves : Finset String)
    (adjacency_list : List (String × String))
    (segments : List (String × BookmarkSegment)) : List BranchStack :=
  let leaves := stack_leaves.sort (· ≤ ·)
  leaves.map (fun leaf_id =>
    let path :=
      (leaf_id :: walkParents adjacency_list (adjacency_list.length + 1) leaf_id).reverse
    ⟨path.filterMap (fun id => mapLookup segments id)⟩)

/-- `build_change_graph`: bookmarks come from `jj.get_my_bookmarks()`, the
log pages from `jj.get_branch_changes_paginated` (concatenated, see module
conventions). -/
def build_change_graph (bookmarks : List Bookmark)
    (vcsLog : String → List LogEntry) : Except StakkError ChangeGraph :=
  let user_bookmark_names := (bookmarks.map (·.name)).toFinset
  match buildLoop vcsLog user_bookmark_names bookmarks ⟨∅, [], [], ∅, ∅, 0⟩ with
  | .error e => .error e
  | .ok st =>
    let parent_ids := st.adjacency_list.map (·.2)
    let stack_leaves :=
      ((st.segments.map (·.1)).filter (fun id => id ∉ parent_ids)).toFinset
    let stackList := group_segments_into_stacks stack_leaves st.adjacency_list st.segments
    .ok ⟨st.adjacency_list, stack_leaves, st.stack_roots, st.segments,
      st.tainted_change_ids, st.excluded_bookmark_count, stackList⟩

end Stakk

-- ---------------------------------------------------------------------------
-- Forge data model (src/src/forge/mod.rs)
-- ---------------------------------------------------------------------------

namespace Stakk

/-- `forge::PrState` (`Open` is spelled `opened`: `open` is a Lean keyword). -/
inductive PrState where
  | opened
  | closed
  | merged
deriving DecidableEq, Repr

/-- `forge::PullRequest`. -/
structure PullRequest where
  number : Nat
  html_url : String
  title : String
  head_ref : String
  base_ref : String
  state : PrState
deriving DecidableEq, Repr

/-- `forge::Comment`. -/
structure Comment where
  id : Nat
  body : String
deriving DecidableEq, Repr

/-- `forge::CreatePrParams`. -/
structure CreatePrParams where
  title : String
  head : String
  base : String
  body : Option String
  draft : Bool
deriving DecidableEq, Repr

/-- `forge::ForgeError`. -/
inductive ForgeError where
  | api (message : String)
  | prNotFound (number : Nat)
  | authFailed (message : String)
  | rateLimited (retry_after_seconds : Nat)
deriving DecidableEq, Repr

end Stakk

-- ---------------------------------------------------------------------------
-- Stack comment codec (src/src/forge/comment.rs)
-- ---------------------------------------------------------------------------

namespace Stakk

/-- `comment::StackEntry`. -/
structure StackEntry where
  bookmark_name : String
  pr_url : String
  pr_number : Nat
deriving DecidableEq, Repr

/-- `comment::StackCommentData`. -/
structure StackCommentData where
  version : Nat
  stack : List StackEntry
deriving DecidableEq, Repr

/-- `COMMENT_DATA_PREFIX`. -/
def commentDataMarkerStart : List Char := "<!--- JACK_STACK: ".data

/-- `COMMENT_DATA_POSTFIX`. -/
def commentDataMarkerEnd : List Char := " --->".data

/-- `STACK_COMMENT_THIS_PR` (U+2190 followed by " this PR"). -/
def stackCommentThisPr : String := "← this PR"

/-- `STACK_COMMENT_FOOTER`. -/
def stackCommentFooter : String := "*Created with [jack](https://github.com/glennib/jack)*"

/-- `serde_json::to_string` of one `StackEntry` (derived `Serialize`,
declaration field order, compact separators). -/
def jsonOfEntry (e : StackEntry) : List Char :=
  '\x7b' :: "\"bookmark_name\":\"".data ++ escapeString e.bookmark_name.data ++
    "\",\"pr_url\":\"".data ++ escapeString e.pr_url.data ++
    "\",\"pr_number\":".data ++ natDecimal e.pr_number ++ ['\x7d']

/-- `serde_json::to_string` of a `StackCommentData`. -/
def jsonOfData (d : StackCommentData) : List Char :=
  '\x7b' :: "\"version\":".data ++ natDecimal d.version ++
    ",\"stack\":[".data ++ List.intercalate [','] (d.stack.map jsonOfEntry) ++
    [']', '\x7d']

/-- `format_stack_comment`. -/
def format_stack_comment (data : StackCommentData) (current_index : Nat) : String :=
  let encoded := base64Encode (utf8Encode (jsonOfData data))
  let plural := if data.stack.length = 1 then "" else "s"
  let header := commentDataMarkerStart ++ encoded ++ commentDataMarkerEnd ++
    ("\nThis PR is part of a stack of " ++ String.mk (natDecimal data.stack.length) ++
      " bookmark" ++ plural ++ ":\n\n1. `trunk()`\n").data
  let lines := (data.stack.enum.map (fun p =>
    if p.1 = current_index then
      ("1. **" ++ p.2.pr_url ++ " " ++ stackCommentThisPr ++ "**\n").data
    else
      ("1. " ++ p.2.pr_url ++ "\n").data)).flatten
  String.mk (header ++ lines ++ ("\n---\n" ++ stackCommentFooter).data)

/-- Substring containment (Rust `str::contains` with a literal pattern). -/
def containsSubstr (hay pat : List Char) : Bool :=
  (findSubstrIdx pat hay).isSome

/-- `find_stack_comment`: note the source tests `c.body.contains(prefix)`
over the whole body. -/
def find_stack_comment (comments : List Comment) : Option Comment :=
  comments.find? (fun c => containsSubstr c.body.data commentDataMarkerStart)

/-- Deserialization of one stack entry (derived `Deserialize`: required
fields looked up by name, u64 range enforced for `pr_number`). -/
def entryOfJson : Json → Option StackEntry
  | .obj ms =>
    match jLookup ms "bookmark_name".data, jLookup ms "pr_url".data,
        jLookup ms "pr_number".data with
    | some (.str bn), some (.str url), some (.num false n) =>
      if n < 2 ^ 64 then some ⟨String.mk bn, String.mk url, n⟩ else none
    | _, _, _ => none
  | _ => none

/-- Deserialization of `StackCommentData` (u32 range enforced for
`version`). -/
def dataOfJson : Json → Option StackCommentData
  | .obj ms =>
    match jLookup ms "version".data, jLookup ms "stack".data with
    | some (.num false v), some (.arr es) =>
      if v < 2 ^ 32 then (es.mapM entryOfJson).map (fun st => ⟨v, st⟩) else none
    | _, _ => none
  | _ => none

/-- The JSON value of a serialized `StackEntry`. -/
def entryJsonVal (e : StackEntry) : Json :=
  .obj [("bookmark_name".data, .str e.bookmark_name.data),
        ("pr_url".data, .str e.pr_url.data),
        ("pr_number".data, .num false e.pr_number)]

/-- The JSON value of a serialized `StackCommentData`. -/
def dataJsonVal (d : StackCommentData) : Json :=
  .obj [("version".data, .num false d.version),
        ("stack".data, .arr (d.stack.map entryJsonVal))]

/-- `parse_stack_comment`: each stage of the source's option chain in
order (first line, marker prefix, marker postfix, base64, UTF-8, JSON). -/
def parse_stack_comment (body : String) : Option StackCommentData := do
  let first_line ← (rustLinesChars body.data).head?
  let idx ← findSubstrIdx commentDataMarkerStart first_line
  let start := idx + commentDataMarkerStart.length
  let after := first_line.drop start
  let endIdx ← findSubstrIdx commentDataMarkerEnd after
  let encoded := after.take endIdx
  let decoded ← base64Decode encoded
  let json_str ← utf8Decode decoded
  let j ← parseJsonDoc json_str
  dataOfJson j

end Stakk

-- ---------------------------------------------------------------------------
-- Submission pipeline (src/src/submit/mod.rs)
-- ---------------------------------------------------------------------------

namespace Stakk

/-- `submit::SubmitError`. -/
inductive SubmitError where
  | bookmarkNotFound (bookmark : String)
  | segmentMissingBookmark
  | prLookupFailed (bookmark : String) (source : ForgeError)
  | pushFailed (bookmark : String) (source : JjError)
  | baseUpdateFailed (bookmark : String) (source : ForgeError)
  | prCreateFailed (bookmark : String) (source : ForgeError)
  | commentFailed (pr_number : Nat) (source : ForgeError)
deriving DecidableEq, Repr

/-- `submit::SubmissionAnalysis`. -/
structure SubmissionAnalysis where
  segments : List BookmarkSegment
  default_branch : String
deriving DecidableEq, Repr

/-- `submit::BookmarkPlan`. -/
structure BookmarkPlan where
  bookmark_name : String
  base : String
  title : String
  body : Option String
  existing_pr : Option PullRequest
  needs_push : Bool
  needs_create : Bool
  needs_base_update : Bool
deriving DecidableEq, Repr

/-- `submit::SubmissionPlan`. -/
structure SubmissionPlan where
  bookmark_plans : List BookmarkPlan
  remote : String
  draft : Bool
deriving DecidableEq, Repr

/-- `submit::SubmissionResult`. -/
structure SubmissionResult where
  stack_entries : List StackEntry
deriving DecidableEq, Repr

/-- `analyze_submission` (phase 1). -/
def analyze_submission (target_bookmark : String) (change_graph : ChangeGraph)
    (default_branch : String) : Except SubmitError SubmissionAnalysis :=
  match change_graph.stacks.find? (fun s =>
      s.segments.any (fun seg => target_bookmark ∈ seg.bookmark_names)) with
  | none => .error (.bookmarkNotFound target_bookmark)
  | some stack =>
    match stack.segments.findIdx? (fun seg => target_bookmark ∈ seg.bookmark_names) with
    | none =>
      -- Rust: `.expect("bookmark was found in stack above")`, unreachable.
      .error (.bookmarkNotFound target_bookmark)
    | some target_index =>
      .ok ⟨stack.segments.take (target_index + 1), default_branch⟩

/-- `build_pr_body`. -/
def build_pr_body (commits : List SegmentCommit) : Option String :=
  match commits with
  | [] => none
  | [c] =>
    let desc := rustTrim c.description
    let rest := String.intercalate "\n" ((rustLines desc).drop 1)
    let body := rustTrim rest
    if body = "" then none else some body
  | cs =>
    let parts := (cs.map (fun c => rustTrim c.description)).filter (fun d => d ≠ "")
    let body := String.intercalate "\n\n---\n\n" parts
    if body = "" then none else some body

/-- The body of `create_submission_plan`'s indexed `for` loop over
`segments.zip(pr_results)`: `names` is the full `bookmark_names` vector
(used for `names[i]` and `names[i-1]`), `i` the running index. -/
def planLoop (default_branch : String) (names : List String) :
    Nat → List (BookmarkSegment × Except ForgeError (Option PullRequest)) →
    Except SubmitError (List BookmarkPlan)
  | _, [] => .ok []
  | i, (segment, pr_result) :: rest => do
    let bookmark_name := names.getD i ""
    let base := if i = 0 then default_branch else names.getD (i - 1) ""
    let title := match segment.commits.head? with
      | some c => ((rustLines c.description).head?).getD c.description
      | none => bookmark_name
    match pr_result with
    | .error source => .error (.prLookupFailed bookmark_name source)
    | .ok existing_pr =>
      let needs_base_update := match existing_pr with
        | some pr => pr.base_ref ≠ base
        | none => false
      let needs_create := existing_pr.isNone
      let body := build_pr_body segment.commits
      let plans ← planLoop default_branch names (i + 1) rest
      .ok ({ bookmark_name := bookmark_name, base := base, title := title,
             body := body, existing_pr := existing_pr, needs_push := true,
             needs_create := needs_create,
             needs_base_update := needs_base_update } :: plans)

/-- `create_submission_plan` (phase 2).  `find_pr_for_branch` is the forge
port; the concurrent lookups of the source are issued per bookmark and
recombined in original order, which is what the `map` computes. -/
def create_submission_plan (analysis : SubmissionAnalysis)
    (find_pr_for_branch : String → Except ForgeError (Option PullRequest))
    (remote : String) (draft : Bool) : Except SubmitError SubmissionPlan := do
  let bookmark_names ← analysis.segments.mapM (fun seg =>
    match seg.bookmark_names.head? with
    | some n => Except.ok n
    | none => Except.error SubmitError.segmentMissingBookmark)
  let pr_results := bookmark_names.map find_pr_for_branch
  let plans ← planLoop analysis.default_branch bookmark_names 0
    (analysis.segments.zip pr_results)
  .ok ⟨plans, remote, draft⟩

end Stakk

-- ---------------------------------------------------------------------------
-- Submission execution (src/src/submit/mod.rs, phase 3).  The jj and forge
-- ports are oracle functions; every port call is recorded as an event so
-- that ordering and abort behaviour are statable.
-- ---------------------------------------------------------------------------

namespace Stakk

/-- One observable port call made by the executor. -/
inductive ForgeEvent where
  | push (bookmark : String) (remote : String)
  | updateBase (pr_number : Nat) (base : String)
  | createPr (params : CreatePrParams)
  | listComments (pr_number : Nat)
  | createComment (pr_number : Nat) (body : String)
  | updateComment (comment_id : Nat) (body : String)
deriving DecidableEq, Repr

/-- Whether an event is a bookmark push. -/
def ForgeEvent.isPush : ForgeEvent → Bool
  | .push _ _ => true
  | _ => false

/-- The jj and forge ports consumed by `execute_submission_plan`. -/
structure ExecPorts where
  push_bookmark : String → String → Except JjError Unit
  update_pr_base : Nat → String → Except ForgeError Unit
  create_pr : CreatePrParams → Except ForgeError PullRequest
  list_comments : Nat → Except ForgeError (List Comment)
  create_comment : Nat → String → Except ForgeError Comment
  update_comment : Nat → String → Except ForgeError Unit

/-- Step 1 of `execute_submission_plan`: sequential pushes, stopping at the
first failure (`?` on `push_bookmark`). -/
def pushPhase (ports : ExecPorts) (remote : String) :
    List BookmarkPlan → List ForgeEvent × Option SubmitError
  | [] => ([], none)
  | bp :: rest =>
    if bp.needs_push then
      match ports.push_bookmark bp.bookmark_name remote with
      | .error source =>
        ([.push bp.bookmark_name remote], some (.pushFailed bp.bookmark_name source))
      | .ok _ =>
        let tail := pushPhase ports remote rest
        (.push bp.bookmark_name remote :: tail.1, tail.2)
    else
      pushPhase ports remote rest

/-- First error of a completed concurrent batch (`join_all` followed by
`for result in results { result?; }`). -/
def firstError : List (Except SubmitError Unit) → Option SubmitError
  | [] => none
  | .error e :: _ => some e
  | .ok _ :: rest => firstError rest

/-- Step 2a of `execute_submission_plan`: base updates for every plan entry
with `needs_base_update` and an existing PR; all issued, first error kept. -/
def baseUpdatePhase (ports : ExecPorts) (plans : List BookmarkPlan) :
    List ForgeEvent × Option SubmitError :=
  let targets := (plans.filter (fun bp => bp.needs_base_update)).filterMap
    (fun bp => bp.existing_pr.map (fun pr => (bp.bookmark_name, pr.number, bp.base)))
  let results := targets.map (fun t =>
    (ForgeEvent.updateBase t.2.1 t.2.2,
      match ports.update_pr_base t.2.1 t.2.2 with
      | .error source => Except.error (SubmitError.baseUpdateFailed t.1 source)
      | .ok _ => Except.ok ()))
  (results.map (·.1), firstError (results.map (·.2)))

/-- Step 2b of `execute_submission_plan`: sequential PR creation, reusing
`existing_pr` verbatim when present. -/
def createPrPhase (ports : ExecPorts) (draft : Bool) :
    List BookmarkPlan → List ForgeEvent × Except SubmitError (List StackEntry)
  | [] => ([], .ok [])
  | bp :: rest =>
    match bp.existing_pr with
    | some existing =>
      let tail := createPrPhase ports draft rest
      (tail.1, tail.2.map (fun entries =>
        ⟨bp.bookmark_name, existing.html_url, existing.number⟩ :: entries))
    | none =>
      let params : CreatePrParams :=
        ⟨bp.title, bp.bookmark_name, bp.base, bp.body, draft⟩
      match ports.create_pr params with
      | .error source =>
        ([.createPr params], .error (.prCreateFailed bp.bookmark_name source))
      | .ok pr =>
        let tail := createPrPhase ports draft rest
        (.createPr params :: tail.1, tail.2.map (fun entries =>
          ⟨bp.bookmark_name, pr.html_url, pr.number⟩ :: entries))

/-- One comment-reconciliation task (step 3): list comments, update the
managed one if found, otherwise create one. -/
def commentTask (ports : ExecPorts) (data : StackCommentData) (i : Nat)
    (entry : StackEntry) : List ForgeEvent × Except SubmitError Unit :=
  match ports.list_comments entry.pr_number with
  | .error source =>
    ([.listComments entry.pr_number], .error (.commentFailed entry.pr_number source))
  | .ok existing_comments =>
    match find_stack_comment existing_comments with
    | some existing =>
      match ports.update_comment existing.id (format_stack_comment data i) with
      | .error source =>
        ([.listComments entry.pr_number,
          .updateComment existing.id (format_stack_comment data i)],
          .error (.commentFailed entry.pr_number source))
      | .ok _ =>
        ([.listComments entry.pr_number,
          .updateComment existing.id (format_stack_comment data i)], .ok ())
    | none =>
      match ports.create_comment entry.pr_number (format_stack_comment data i) with
      | .error source =>
        ([.listComments entry.pr_number,
          .createComment entry.pr_number (format_stack_comment data i)],
          .error (.commentFailed entry.pr_number source))
      | .ok _ =>
        ([.listComments entry.pr_number,
          .createComment entry.pr_number (format_stack_comment data i)], .ok ())

/-- Step 3 of `execute_submission_plan`: one task per resulting PR, all run,
first error kept. -/
def commentPhase (ports : ExecPorts) (stack_entries : List StackEntry) :
    List ForgeEvent × Option SubmitError :=
  let data : StackCommentData := ⟨0, stack_entries⟩
  let tasks := stack_entries.enum.map (fun p => commentTask ports data p.1 p.2)
  ((tasks.map (·.1)).flatten, firstError (tasks.map (·.2)))

/-- `execute_submission_plan`: the four phases in order, with the events of
completed phases kept on failure. -/
def execute_submission_plan (plan : SubmissionPlan) (ports : ExecPorts) :
    List ForgeEvent × Except SubmitError SubmissionResult :=
  match pushPhase ports plan.remote plan.bookmark_plans with
  | (evs1, some e) => (evs1, .error e)
  | (evs1, none) =>
    match baseUpdatePhase ports plan.bookmark_plans with
    | (evs2, some e) => (evs1 ++ evs2, .error e)
    | (evs2, none) =>
      match createPrPhase ports plan.draft plan.bookmark_plans with
      | (evs3, .error e) => (evs1 ++ evs2 ++ evs3, .error e)
      | (evs3, .ok stack_entries) =>
        match commentPhase ports stack_entries with
        | (evs4, some e) => (evs1 ++ evs2 ++ evs3 ++ evs4, .error e)
        | (evs4, none) => (evs1 ++ evs2 ++ evs3 ++ evs4, .ok ⟨stack_entries⟩)

end Stakk

-- ---------------------------------------------------------------------------
-- Concrete fixtures used by witnesses and counterexamples
-- ---------------------------------------------------------------------------

namespace Stakk

/-- A one-commit segment. -/
def fixSeg (names : List String) (ch desc : String) : BookmarkSegment :=
  ⟨names, ch, [⟨"c_" ++ ch, ch, desc, "Test"⟩]⟩

/-- Two-segment analysis for the planner. -/
def c5Analysis : SubmissionAnalysis :=
  ⟨[fixSeg ["feat-a"] "ch_a" "feature a", fixSeg ["feat-b"] "ch_b" "feature b"], "main"⟩

/-- Forge with no existing PRs. -/
def c5FindPr : String → Except ForgeError (Option PullRequest) := fun _ => .ok none

/-- The plan the planner produces on `c5Analysis` / `c5FindPr`. -/
def c5Plan : SubmissionPlan :=
  ⟨[⟨"feat-a", "main", "feature a", none, none, true, true, false⟩,
    ⟨"feat-b", "feat-a", "feature b", none, none, true, true, false⟩], "origin", false⟩

/-- One segment whose only commit has an empty description. -/
def c6Analysis : SubmissionAnalysis := ⟨[fixSeg ["bm"] "ch_x" ""], "main"⟩

/-- The plan the planner produces on `c6Analysis` / `c5FindPr`: the title is
the empty string, not the bookmark name. -/
def c6Plan : SubmissionPlan :=
  ⟨[⟨"bm", "main", "", none, none, true, true, false⟩], "origin", false⟩

end Stakk

namespace Stakk

/-- Ports whose calls all succeed (fixture). -/
def c7Ports : ExecPorts :=
  ⟨fun _ _ => .ok (),
   fun _ _ => .ok (),
   fun p => .ok ⟨100, "https://example.com/pull/100", p.title, p.head, p.base, .opened⟩,
   fun _ => .ok [],
   fun n b => .ok ⟨n, b⟩,
   fun _ _ => .ok ()⟩

/-- One plan entry with `needs_push = false` and an existing PR (fixture). -/
def c7Plan : SubmissionPlan :=
  ⟨[⟨"feat-a", "main", "feature a", none,
     some ⟨42, "https://example.com/pull/42", "t", "feat-a", "main", .opened⟩,
     false, false, false⟩], "origin", false⟩

end Stakk

namespace Stakk

/-- A comment whose marker sits on the second line (fixture). -/
def c3Comment : Comment := ⟨1, "hello\n<!--- JACK_STACK: x --->"⟩

/-- A bookmark sitting on a merge commit (fixture). -/
def c1Bookmark : Bookmark := ⟨"bm_m", "c_m", "ch_m", false⟩

/-- Log oracle: the merge commit with two parents (fixture). -/
def c1Log : String → List LogEntry :=
  fun c => if c = "c_m" then [⟨"c_m", "ch_m", "d", ["p1", "p2"], "T", ["bm_m"], []⟩] else []

/-- Empty initial build state (fixture). -/
def c1State : BuildState := ⟨∅, [], [], ∅, ∅, 0⟩

end Stakk

-- ===========================================================================
-- Theorems
-- ===========================================================================

namespace Stakk

/-- Helper: a stack contains the target bookmark. -/
theorem analyze_find_pred_iff (target : String) (s : BranchStack) :
    (s.segments.any (fun seg => target ∈ seg.bookmark_names) = true) ↔
      ∃ seg ∈ s.segments, target ∈ seg.bookmark_names := by
  simp [List.any_eq_true]

/-- C8: `analyze_submission` fails with `BookmarkNotFound` exactly when no
stack has a segment naming the target; on success it returns the first
containing stack's segments up to and including the first segment naming
the target, with the given default branch. -/
theorem analyze_submission_spec (target : String) (g : ChangeGraph)
    (default_branch : String) :
    (analyze_submission target g default_branch = .error (.bookmarkNotFound target) ↔
      ∀ stack ∈ g.stacks, ∀ seg ∈ stack.segments, target ∉ seg.bookmark_names) ∧
    (∀ e, analyze_submission target g default_branch = .error e →
      e = .bookmarkNotFound target) ∧
    (∀ a, analyze_submission target g default_branch = .ok a →
      a.default_branch = default_branch ∧
      ∃ pre stack post, g.stacks = pre ++ stack :: post ∧
        (∀ s ∈ pre, ∀ seg ∈ s.segments, target ∉ seg.bookmark_names) ∧
        ∃ idx seg, stack.segments[idx]? = some seg ∧
          target ∈ seg.bookmark_names ∧
          (∀ k segk, k < idx → stack.segments[k]? = some segk →
            target ∉ segk.bookmark_names) ∧
          a.segments = stack.segments.take (idx + 1)) := by
  cases hf : g.stacks.find? (fun s =>
      s.segments.any (fun seg => target ∈ seg.bookmark_names)) with
  | none =>
    have hres : analyze_submission target g default_branch =
        .error (.bookmarkNotFound target) := by
      unfold analyze_submission; rw [hf]
    rw [List.find?_eq_none] at hf
    refine ⟨⟨fun _ => ?_, fun _ => hres⟩, fun e he => ?_, fun a ha => ?_⟩
    · intro stack hs seg hseg hmem
      exact (hf stack hs) ((analyze_find_pred_iff target stack).mpr ⟨seg, hseg, hmem⟩)
    · rw [hres] at he; cases he; rfl
    · rw [hres] at ha; cases ha
  | some stack =>
    have hpred := List.find?_some hf
    have hex : ∃ seg, seg ∈ stack.segments ∧ (decide (target ∈ seg.bookmark_names)) = true := by
      have := (analyze_find_pred_iff target stack).mp hpred
      simpa using this
    cases hidx : stack.segments.findIdx? (fun seg => target ∈ seg.bookmark_names) with
    | none =>
      exfalso
      rw [List.findIdx?_eq_none_iff] at hidx
      obtain ⟨seg, hseg, hp⟩ := hex
      have := hidx seg hseg
      rw [this] at hp
      cases hp
    | some idx =>
      have hres : analyze_submission target g default_branch =
          .ok ⟨stack.segments.take (idx + 1), default_branch⟩ := by
        unfold analyze_submission
        rw [hf]
        split <;> simp_all
      have hsome := List.findIdx?_eq_some_iff_getElem.mp hidx
      obtain ⟨hlt, hp, hbefore⟩ := hsome
      have hmem_stack := List.mem_of_find?_eq_some hf
      refine ⟨⟨fun h => ?_, fun hall => ?_⟩, fun e he => ?_, fun a ha => ?_⟩
      · rw [hres] at h; cases h
      · exfalso
        have := hall stack hmem_stack (stack.segments[idx]) (List.getElem_mem hlt)
        simp at hp
        exact this hp
      · rw [hres] at he; cases he
      · rw [hres] at ha
        cases ha
        refine ⟨rfl, ?_⟩
        obtain ⟨_, pre, post, hdecomp, hpre⟩ := List.find?_eq_some.mp hf
        refine ⟨pre, stack, post, hdecomp, ?_, idx, stack.segments[idx], ?_, ?_, ?_, rfl⟩
        · intro s hs seg hseg hmem
          have hns := hpre s hs
          simp only [Bool.not_eq_true'] at hns
          have : s.segments.any (fun seg => target ∈ seg.bookmark_names) = true :=
            (analyze_find_pred_iff target s).mpr ⟨seg, hseg, hmem⟩
          rw [this] at hns
          cases hns
        · exact List.getElem?_eq_getElem hlt
        · simpa using hp
        · intro k segk hk hks hmem
          have hklt : k < stack.segments.length := Nat.lt_trans hk hlt
          have hsk : segk = stack.segments[k] := by
            rw [List.getElem?_eq_getElem hklt] at hks
            exact ((Option.some.injEq _ _).mp hks).symm
          subst hsk
          have := hbefore k hk
          simp at this
          exact this hmem

end Stakk

namespace Stakk

/-- Helper: successful `mapM` over `Except` maps index-wise. -/
theorem exceptMapM_spec {α β ε : Type} (f : α → Except ε β) :
    ∀ (l : List α) (out : List β), l.mapM f = .ok out →
      out.length = l.length ∧
      ∀ (i : Nat) (a : α), l[i]? = some a → ∃ b, f a = .ok b ∧ out[i]? = some b := by
  intro l
  induction l with
  | nil =>
    intro out h
    simp only [List.mapM_nil, pure, Except.pure] at h
    cases h
    simp
  | cons a as ih =>
    intro out h
    rw [List.mapM_cons] at h
    cases hfa : f a with
    | error e =>
      rw [hfa] at h
      simp [Bind.bind, Except.bind, pure, Except.pure] at h
    | ok b =>
      rw [hfa] at h
      simp only [Bind.bind, Except.bind] at h
      cases hrest : as.mapM f with
      | error e => rw [hrest] at h; simp [pure, Except.pure] at h
      | ok bs =>
        rw [hrest] at h
        simp only [pure, Except.pure, Except.ok.injEq] at h
        subst h
        obtain ⟨hlen, hidx⟩ := ih bs hrest
        refine ⟨by simp [hlen], ?_⟩
        intro i x hx
        cases i with
        | zero =>
          simp only [List.getElem?_cons_zero, Option.some.injEq] at hx
          subst hx
          exact ⟨b, hfa, by simp⟩
        | succ i =>
          simp only [List.getElem?_cons_succ] at hx ⊢
          exact hidx i x hx

/-- Helper: index-wise characterisation of a successful `planLoop`. -/
theorem planLoop_spec (default_branch : String) (names : List String) :
    ∀ (pairs : List (BookmarkSegment × Except ForgeError (Option PullRequest)))
      (i : Nat) (plans : List BookmarkPlan),
      planLoop default_branch names i pairs = .ok plans →
      plans.length = pairs.length ∧
      ∀ k seg r, pairs[k]? = some (seg, r) →
        ∃ bp existing, plans[k]? = some bp ∧ r = .ok existing ∧
          bp.bookmark_name = names.getD (i + k) "" ∧
          bp.base = (if i + k = 0 then default_branch else names.getD (i + k - 1) "") ∧
          bp.title = (match seg.commits.head? with
            | some c => ((rustLines c.description).head?).getD c.description
            | none => names.getD (i + k) "") ∧
          bp.body = build_pr_body seg.commits ∧
          bp.existing_pr = existing ∧
          bp.needs_push = true ∧
          bp.needs_create = existing.isNone ∧
          bp.needs_base_update = (match existing with
            | some pr => decide (pr.base_ref ≠ bp.base)
            | none => false) := by
  intro pairs
  induction pairs with
  | nil =>
    intro i plans h
    simp only [planLoop] at h
    cases h
    simp
  | cons pr rest ih =>
    intro i plans h
    obtain ⟨segment, pr_result⟩ := pr
    simp only [planLoop] at h
    cases pr_result with
    | error e => simp [Bind.bind, Except.bind] at h
    | ok existing =>
      simp only [Bind.bind, Except.bind] at h
      cases hrec : planLoop default_branch names (i + 1) rest with
      | error e => rw [hrec] at h; cases h
      | ok tailPlans =>
        rw [hrec] at h
        cases h
        obtain ⟨hlen, hidx⟩ := ih (i + 1) tailPlans hrec
        constructor
        · simp [hlen]
        · intro k seg r hk
          cases k with
          | zero =>
            simp only [List.getElem?_cons_zero, Option.some.injEq, Prod.mk.injEq] at hk
            obtain ⟨hseg, hr⟩ := hk
            subst hseg
            subst hr
            simp only [Nat.add_zero]
            exact ⟨_, existing, List.getElem?_cons_zero, rfl, rfl, rfl, rfl, rfl, rfl, rfl, rfl,
              by cases existing <;> rfl⟩
          | succ k =>
            simp only [List.getElem?_cons_succ] at hk ⊢
            obtain ⟨bp, ex, hbp, hrest⟩ := hidx k seg r hk
            refine ⟨bp, ex, hbp, ?_⟩
            have harith : i + 1 + k = i + (k + 1) := by omega
            rw [harith] at hrest
            exact hrest

end Stakk

namespace Stakk

/-- Helper: full index-wise description of a successfully produced plan
(all `BookmarkPlan` fields). -/
theorem createPlanFull (analysis : SubmissionAnalysis)
    (findPr : String → Except ForgeError (Option PullRequest))
    (remote : String) (draft : Bool) (plan : SubmissionPlan)
    (hok : create_submission_plan analysis findPr remote draft = .ok plan) :
    plan.remote = remote ∧ plan.draft = draft ∧
    plan.bookmark_plans.length = analysis.segments.length ∧
    ∀ i, i < analysis.segments.length →
      ∃ seg name existing bp,
        analysis.segments[i]? = some seg ∧
        plan.bookmark_plans[i]? = some bp ∧
        seg.bookmark_names.head? = some name ∧
        findPr name = .ok existing ∧
        bp.bookmark_name = name ∧
        bp.existing_pr = existing ∧
        bp.needs_push = true ∧
        (bp.needs_create = true ↔ existing = none) ∧
        (bp.needs_base_update = true ↔
          ∃ pr, existing = some pr ∧ pr.base_ref ≠ bp.base) ∧
        (i = 0 → bp.base = analysis.default_branch) ∧
        (∀ j, i = j + 1 → ∃ segp namep, analysis.segments[j]? = some segp ∧
          segp.bookmark_names.head? = some namep ∧ bp.base = namep) ∧
        bp.title = (match seg.commits.head? with
          | some c => ((rustLines c.description).head?).getD c.description
          | none => name) ∧
        bp.body = build_pr_body seg.commits := by
  unfold create_submission_plan at hok
  set f := fun seg : BookmarkSegment =>
    (match seg.bookmark_names.head? with
      | some n => Except.ok n
      | none => Except.error SubmitError.segmentMissingBookmark :
        Except SubmitError String) with hf
  cases hnames : analysis.segments.mapM f with
  | error e =>
    rw [hf] at hnames
    rw [hnames] at hok
    simp [Bind.bind, Except.bind] at hok
  | ok names =>
    rw [hf] at hnames
    rw [hnames] at hok
    simp only [Bind.bind, Except.bind] at hok
    cases hplans : planLoop analysis.default_branch names 0
        (analysis.segments.zip (names.map findPr)) with
    | error e => rw [hplans] at hok; cases hok
    | ok plans =>
      rw [hplans] at hok
      cases hok
      obtain ⟨hnlen, hnidx⟩ := exceptMapM_spec f analysis.segments names hnames
      obtain ⟨hplen, hpidx⟩ :=
        planLoop_spec analysis.default_branch names
          (analysis.segments.zip (names.map findPr)) 0 plans hplans
      have hname_at : ∀ (k : Nat) (seg : BookmarkSegment),
          analysis.segments[k]? = some seg →
          ∃ nm, seg.bookmark_names.head? = some nm ∧ names[k]? = some nm := by
        intro k seg hk
        obtain ⟨b, hfb, hout⟩ := hnidx k seg hk
        refine ⟨b, ?_, hout⟩
        rw [hf] at hfb
        beta_reduce at hfb
        cases hh : seg.bookmark_names.head? with
        | none => rw [hh] at hfb; cases hfb
        | some nm => rw [hh] at hfb; cases hfb; rfl
      refine ⟨rfl, rfl, ?_, ?_⟩
      · rw [hplen, List.length_zip, List.length_map, hnlen]
        omega
      · intro i hi
        have hseg : ∃ seg, analysis.segments[i]? = some seg :=
          ⟨analysis.segments[i], List.getElem?_eq_getElem hi⟩
        obtain ⟨seg, hsegi⟩ := hseg
        obtain ⟨name, hhead, hnamei⟩ := hname_at i seg hsegi
        have hres : (names.map findPr)[i]? = some (findPr name) := by
          rw [List.getElem?_map, hnamei]
          rfl
        have hzip : (analysis.segments.zip (names.map findPr))[i]? =
            some (seg, findPr name) :=
          List.getElem?_zip_eq_some.mpr ⟨hsegi, hres⟩
        obtain ⟨bp, existing, hbp, hr, hbname, hbase, htitle, hbody, hex,
          hpush, hcreate, hupdate⟩ := hpidx i seg (findPr name) hzip
        simp only [Nat.zero_add] at hbname hbase htitle
        have hgetd : names.getD i "" = name := by
          rw [List.getD_eq_getElem?_getD, hnamei]; rfl
        refine ⟨seg, name, existing, bp, hsegi, hbp, hhead, hr, ?_, hex,
          hpush, ?_, ?_, ?_, ?_, ?_, hbody⟩
        · rw [hbname, hgetd]
        · rw [hcreate]
          cases existing <;> simp
        · rw [hupdate]
          cases existing with
          | none => simp
          | some pr => simp
        · intro h0
          rw [hbase, if_pos h0]
        · intro j hij
          have hjlt : j < analysis.segments.length := by omega
          obtain ⟨segp, hsegpj⟩ : ∃ sp, analysis.segments[j]? = some sp :=
            ⟨analysis.segments[j], List.getElem?_eq_getElem hjlt⟩
          obtain ⟨namep, hheadp, hnamepj⟩ := hname_at j segp hsegpj
          refine ⟨segp, namep, hsegpj, hheadp, ?_⟩
          rw [hbase, if_neg (by omega)]
          have : i - 1 = j := by omega
          rw [this, List.getD_eq_getElem?_getD, hnamepj]
          rfl
        · rw [htitle, hgetd]

/-- C5: on an analysis whose segments all carry a bookmark name, a
successfully produced plan has, at every index, the claimed base,
`needs_create`, `needs_base_update` and `needs_push` values. -/
theorem create_submission_plan_spec (analysis : SubmissionAnalysis)
    (findPr : String → Except ForgeError (Option PullRequest))
    (remote : String) (draft : Bool) (plan : SubmissionPlan)
    (hok : create_submission_plan analysis findPr remote draft = .ok plan) :
    plan.bookmark_plans.length = analysis.segments.length ∧
    ∀ i, i < analysis.segments.length →
      ∃ seg name existing bp,
        analysis.segments[i]? = some seg ∧
        plan.bookmark_plans[i]? = some bp ∧
        seg.bookmark_names.head? = some name ∧
        findPr name = .ok existing ∧
        bp.existing_pr = existing ∧
        bp.needs_push = true ∧
        (bp.needs_create = true ↔ existing = none) ∧
        (bp.needs_base_update = true ↔
          ∃ pr, existing = some pr ∧ pr.base_ref ≠ bp.base) ∧
        (i = 0 → bp.base = analysis.default_branch) ∧
        (∀ j, i = j + 1 → ∃ segp namep, analysis.segments[j]? = some segp ∧
          segp.bookmark_names.head? = some namep ∧ bp.base = namep) := by
  obtain ⟨_, _, hlen, hidx⟩ := createPlanFull analysis findPr remote draft plan hok
  refine ⟨hlen, fun i hi => ?_⟩
  obtain ⟨seg, name, existing, bp, h1, h2, h3, h4, _h5, h6, h7, h8, h9, h10,
    h11, _, _⟩ := hidx i hi
  exact ⟨seg, name, existing, bp, h1, h2, h3, h4, h6, h7, h8, h9, h10, h11⟩

/-- C5 witness: the spec instantiated on the two-segment fixture. -/
theorem create_submission_plan_spec_witness :
    c5Plan.bookmark_plans.length = c5Analysis.segments.length :=
  (create_submission_plan_spec c5Analysis c5FindPr "origin" false c5Plan rfl).1

end Stakk

namespace Stakk

/-- C6 counterexample: a segment whose only commit has an empty description
gets the empty string as title, not the bookmark name "bm". -/
theorem plan_title_empty_description_counterexample :
    create_submission_plan c6Analysis c5FindPr "origin" false = .ok c6Plan ∧
    c6Plan.bookmark_plans.map (fun bp => bp.title) = [""] ∧
    ("" : String) ≠ "bm" := by
  refine ⟨rfl, rfl, ?_⟩
  decide

/-- C6 (amended): a planned PR title is the first line of the segment's
first commit's description (the whole description — hence empty — when the
description has no first line), and the bookmark name is used only when the
segment has no commits at all. -/
theorem plan_title_spec (analysis : SubmissionAnalysis)
    (findPr : String → Except ForgeError (Option PullRequest))
    (remote : String) (draft : Bool) (plan : SubmissionPlan)
    (hok : create_submission_plan analysis findPr remote draft = .ok plan) :
    ∀ i, i < analysis.segments.length →
      ∃ seg name bp,
        analysis.segments[i]? = some seg ∧
        plan.bookmark_plans[i]? = some bp ∧
        seg.bookmark_names.head? = some name ∧
        (∀ c cs, seg.commits = c :: cs →
          bp.title = ((rustLines c.description).head?).getD c.description) ∧
        (seg.commits = [] → bp.title = name) := by
  obtain ⟨_, _, _, hidx⟩ := createPlanFull analysis findPr remote draft plan hok
  intro i hi
  obtain ⟨seg, name, existing, bp, h1, h2, h3, _, _, _, _, _, _, _, _,
    htitle, _⟩ := hidx i hi
  refine ⟨seg, name, bp, h1, h2, h3, ?_, ?_⟩
  · intro c cs hc
    rw [htitle, hc]
    rfl
  · intro hnil
    rw [htitle, hnil]
    rfl

/-- C6 witness: the amended title rule instantiated on the empty-description
fixture at index 0. -/
theorem plan_title_spec_witness :
    ∃ seg name bp,
      c6Analysis.segments[0]? = some seg ∧
      c6Plan.bookmark_plans[0]? = some bp ∧
      seg.bookmark_names.head? = some name ∧
      (∀ c cs, seg.commits = c :: cs →
        bp.title = ((rustLines c.description).head?).getD c.description) ∧
      (seg.commits = [] → bp.title = name) :=
  plan_title_spec c6Analysis c5FindPr "origin" false c6Plan rfl 0 (by decide)

end Stakk

namespace Stakk

/-- C10: the PR-creation phase ignores `needs_create` entirely (replacing
that flag by anything changes nothing), reuses a present `existing_pr`
verbatim, creates a PR exactly for the entries without one, and on success
returns one stack entry per plan entry in plan order; `execute` returns that
list as its result. -/
theorem createPrPhase_spec (ports : ExecPorts) (draft : Bool)
    (plans : List BookmarkPlan) :
    (∀ f : BookmarkPlan → Bool,
      createPrPhase ports draft
        (plans.map (fun bp => { bp with needs_create := f bp })) =
        createPrPhase ports draft plans) ∧
    (∀ entries, (createPrPhase ports draft plans).2 = .ok entries →
      entries.length = plans.length ∧
      ∀ (i : Nat) bp, plans[i]? = some bp →
        ∃ entry, entries[i]? = some entry ∧
          (∀ pr, bp.existing_pr = some pr →
            entry = ⟨bp.bookmark_name, pr.html_url, pr.number⟩) ∧
          (bp.existing_pr = none →
            ∃ pr, ports.create_pr
                ⟨bp.title, bp.bookmark_name, bp.base, bp.body, draft⟩ = .ok pr ∧
              entry = ⟨bp.bookmark_name, pr.html_url, pr.number⟩)) ∧
    (∀ (plan : SubmissionPlan) (evs : List ForgeEvent) (res : SubmissionResult),
      plan.bookmark_plans = plans → plan.draft = draft →
      execute_submission_plan plan ports = (evs, .ok res) →
      (createPrPhase ports draft plans).2 = .ok res.stack_entries) := by
  refine ⟨?_, ?_, ?_⟩
  · intro f
    induction plans with
    | nil => rfl
    | cons bp rest ih =>
      simp only [List.map_cons, createPrPhase]
      cases hex : bp.existing_pr with
      | some pr => rw [ih]
      | none => cases ports.create_pr _ with
        | error e => rfl
        | ok pr => rw [ih]
  · induction plans with
    | nil =>
      intro entries h
      simp only [createPrPhase] at h
      cases h
      simp
    | cons bp rest ih =>
      intro entries h
      simp only [createPrPhase] at h
      cases hex : bp.existing_pr with
      | some pr =>
        rw [hex] at h
        simp only at h
        cases htail : (createPrPhase ports draft rest).2 with
        | error e => rw [htail] at h; cases h
        | ok tailEntries =>
          rw [htail] at h
          simp only [Except.map, Except.ok.injEq] at h
          subst h
          obtain ⟨hlen, hidx⟩ := ih tailEntries htail
          refine ⟨by simp [hlen], ?_⟩
          intro i bpi hi
          cases i with
          | zero =>
            simp only [List.getElem?_cons_zero, Option.some.injEq] at hi
            subst hi
            refine ⟨_, List.getElem?_cons_zero, ?_, ?_⟩
            · intro pr' hpr'
              rw [hex] at hpr'
              cases hpr'
              rfl
            · intro hnone
              rw [hex] at hnone
              cases hnone
          | succ i =>
            simp only [List.getElem?_cons_succ] at hi ⊢
            exact hidx i bpi hi
      | none =>
        rw [hex] at h
        simp only at h
        cases hcr : ports.create_pr ⟨bp.title, bp.bookmark_name, bp.base, bp.body, draft⟩ with
        | error e => rw [hcr] at h; cases h
        | ok pr =>
          rw [hcr] at h
          simp only at h
          cases htail : (createPrPhase ports draft rest).2 with
          | error e => rw [htail] at h; cases h
          | ok tailEntries =>
            rw [htail] at h
            simp only [Except.map, Except.ok.injEq] at h
            subst h
            obtain ⟨hlen, hidx⟩ := ih tailEntries htail
            refine ⟨by simp [hlen], ?_⟩
            intro i bpi hi
            cases i with
            | zero =>
              simp only [List.getElem?_cons_zero, Option.some.injEq] at hi
              subst hi
              refine ⟨_, List.getElem?_cons_zero, ?_, ?_⟩
              · intro pr' hpr'
                rw [hex] at hpr'
                cases hpr'
              · intro _
                exact ⟨pr, hcr, rfl⟩
            | succ i =>
              simp only [List.getElem?_cons_succ] at hi ⊢
              exact hidx i bpi hi
  · intro plan evs res hplans hdraft hexec
    subst hplans
    subst hdraft
    unfold execute_submission_plan at hexec
    split at hexec
    · simp at hexec
    · split at hexec
      · simp at hexec
      · split at hexec
        · simp at hexec
        · rename_i stack_entries heq3
          split at hexec
          · simp at hexec
          · simp only [Prod.mk.injEq] at hexec
            obtain ⟨_, hres⟩ := hexec
            cases hres
            rw [heq3]

end Stakk

namespace Stakk

/-- Helper: base-update events are never pushes. -/
theorem baseUpdatePhase_no_push (ports : ExecPorts) (plans : List BookmarkPlan) :
    ∀ ev ∈ (baseUpdatePhase ports plans).1, ev.isPush = false := by
  intro ev hev
  simp only [baseUpdatePhase, List.map_map, List.mem_map] at hev
  obtain ⟨t, _, hev⟩ := hev
  subst hev
  rfl

/-- Helper: PR-creation events are never pushes. -/
theorem createPrPhase_no_push (ports : ExecPorts) (draft : Bool) :
    ∀ plans : List BookmarkPlan, ∀ ev ∈ (createPrPhase ports draft plans).1,
      ev.isPush = false := by
  intro plans
  induction plans with
  | nil => intro ev hev; simp [createPrPhase] at hev
  | cons bp rest ih =>
    intro ev hev
    simp only [createPrPhase] at hev
    cases hex : bp.existing_pr with
    | some pr =>
      rw [hex] at hev
      exact ih ev hev
    | none =>
      rw [hex] at hev
      cases hcr : ports.create_pr ⟨bp.title, bp.bookmark_name, bp.base, bp.body, draft⟩ with
      | error e =>
        rw [hcr] at hev
        simp only [List.mem_singleton] at hev
        subst hev
        rfl
      | ok pr =>
        rw [hcr] at hev
        simp only [List.mem_cons] at hev
        cases hev with
        | inl h => subst h; rfl
        | inr h => exact ih ev h

/-- Helper: comment-reconciliation events are never pushes. -/
theorem commentPhase_no_push (ports : ExecPorts) (entries : List StackEntry) :
    ∀ ev ∈ (commentPhase ports entries).1, ev.isPush = false := by
  intro ev hev
  simp only [commentPhase, List.mem_flatten, List.map_map, List.mem_map] at hev
  obtain ⟨l, ⟨p, _, hl⟩, hev⟩ := hev
  subst hl
  simp only [Function.comp] at hev
  unfold commentTask at hev
  split at hev
  case _ =>
    simp only [List.mem_singleton] at hev
    subst hev; rfl
  case _ =>
    split at hev
    · split at hev <;>
        (simp only [List.mem_cons, List.mem_singleton, List.not_mem_nil, or_false] at hev
         rcases hev with rfl | rfl <;> rfl)
    · split at hev <;>
        (simp only [List.mem_cons, List.mem_singleton, List.not_mem_nil, or_false] at hev
         rcases hev with rfl | rfl <;> rfl)

/-- Helper: the push phase pushes exactly the `needs_push` entries in plan
order while they succeed, and stops with `PushFailed` at the first failing
push. -/
theorem pushPhase_spec (ports : ExecPorts) (remote : String) :
    ∀ plans : List BookmarkPlan,
      ((∀ bp ∈ plans.filter (fun bp => bp.needs_push),
          ports.push_bookmark bp.bookmark_name remote = .ok ()) →
        pushPhase ports remote plans =
          ((plans.filter (fun bp => bp.needs_push)).map
            (fun bp => ForgeEvent.push bp.bookmark_name remote), none)) ∧
      (∀ pre bp suf e,
        plans.filter (fun bp => bp.needs_push) = pre ++ bp :: suf →
        (∀ b ∈ pre, ports.push_bookmark b.bookmark_name remote = .ok ()) →
        ports.push_bookmark bp.bookmark_name remote = .error e →
        pushPhase ports remote plans =
          (pre.map (fun b => ForgeEvent.push b.bookmark_name remote) ++
            [ForgeEvent.push bp.bookmark_name remote],
            some (.pushFailed bp.bookmark_name e))) := by
  intro plans
  induction plans with
  | nil =>
    refine ⟨fun _ => rfl, ?_⟩
    intro pre bp suf e hfil
    simp at hfil
  | cons bp0 rest ih =>
    cases hnp : bp0.needs_push with
    | false =>
      have hfil : (bp0 :: rest).filter (fun bp => bp.needs_push) =
          rest.filter (fun bp => bp.needs_push) := by
        simp [List.filter_cons, hnp]
      have hphase : pushPhase ports remote (bp0 :: rest) = pushPhase ports remote rest := by
        simp [pushPhase, hnp]
      rw [hfil, hphase]
      exact ih
    | true =>
      have hfil : (bp0 :: rest).filter (fun bp => bp.needs_push) =
          bp0 :: rest.filter (fun bp => bp.needs_push) := by
        simp [List.filter_cons, hnp]
      rw [hfil]
      constructor
      · intro hall
        have h0 : ports.push_bookmark bp0.bookmark_name remote = .ok () :=
          hall bp0 (List.mem_cons_self bp0 _)
        have htail := ih.1 (fun bp hbp => hall bp (List.mem_cons_of_mem _ hbp))
        simp [pushPhase, hnp, h0, htail]
      · intro pre bp suf e hdecomp hpre hfail
        cases pre with
        | nil =>
          simp only [List.nil_append, List.cons.injEq] at hdecomp
          obtain ⟨hbp, _⟩ := hdecomp
          subst hbp
          simp [pushPhase, hnp, hfail]
        | cons p0 pre' =>
          simp only [List.cons_append, List.cons.injEq] at hdecomp
          obtain ⟨hp0, hdecomp'⟩ := hdecomp
          subst hp0
          have h0 : ports.push_bookmark bp0.bookmark_name remote = .ok () :=
            hpre bp0 (List.mem_cons_self bp0 _)
          have htail := ih.2 pre' bp suf e hdecomp'
            (fun b hb => hpre b (List.mem_cons_of_mem _ hb)) hfail
          simp [pushPhase, hnp, h0, htail]

end Stakk

namespace Stakk

/-- C7 (amended): the executor's push phase pushes exactly the plan entries
whose `needs_push` flag is true, sequentially in plan (trunk-to-leaf) order,
to the plan's remote; while pushes succeed the trace starts with those push
events and no later-phase event is a push, and a push failure ends execution
with `PushFailed` before any later phase runs. -/
theorem execute_push_spec (ports : ExecPorts) (plan : SubmissionPlan) :
    ((∀ bp ∈ plan.bookmark_plans.filter (fun bp => bp.needs_push),
        ports.push_bookmark bp.bookmark_name plan.remote = .ok ()) →
      ∃ laterEvs,
        (execute_submission_plan plan ports).1 =
          ((plan.bookmark_plans.filter (fun bp => bp.needs_push)).map
            (fun bp => ForgeEvent.push bp.bookmark_name plan.remote)) ++ laterEvs ∧
        ∀ ev ∈ laterEvs, ev.isPush = false) ∧
    (∀ pre bp suf e,
      plan.bookmark_plans.filter (fun bp => bp.needs_push) = pre ++ bp :: suf →
      (∀ b ∈ pre, ports.push_bookmark b.bookmark_name plan.remote = .ok ()) →
      ports.push_bookmark bp.bookmark_name plan.remote = .error e →
      execute_submission_plan plan ports =
        (pre.map (fun b => ForgeEvent.push b.bookmark_name plan.remote) ++
          [ForgeEvent.push bp.bookmark_name plan.remote],
          .error (.pushFailed bp.bookmark_name e))) := by
  constructor
  · intro hall
    have hpush := (pushPhase_spec ports plan.remote plan.bookmark_plans).1 hall
    unfold execute_submission_plan
    rw [hpush]
    cases h2 : baseUpdatePhase ports plan.bookmark_plans with
    | mk evs2 r2 =>
      cases r2 with
      | some e =>
        refine ⟨evs2, rfl, ?_⟩
        intro ev hev
        exact baseUpdatePhase_no_push ports plan.bookmark_plans ev (by rw [h2] at *; exact hev)
      | none =>
        cases h3 : createPrPhase ports plan.draft plan.bookmark_plans with
        | mk evs3 r3 =>
          have hno3 : ∀ ev ∈ evs3, ev.isPush = false := by
            intro ev hev
            exact createPrPhase_no_push ports plan.draft plan.bookmark_plans ev
              (by rw [h3]; exact hev)
          have hno2 : ∀ ev ∈ evs2, ev.isPush = false := by
            intro ev hev
            exact baseUpdatePhase_no_push ports plan.bookmark_plans ev
              (by rw [h2]; exact hev)
          cases r3 with
          | error e =>
            refine ⟨evs2 ++ evs3, by simp [List.append_assoc], ?_⟩
            intro ev hev
            rcases List.mem_append.mp hev with h | h
            · exact hno2 ev h
            · exact hno3 ev h
          | ok stack_entries =>
            cases h4 : commentPhase ports stack_entries with
            | mk evs4 r4 =>
              have hno4 : ∀ ev ∈ evs4, ev.isPush = false := by
                intro ev hev
                exact commentPhase_no_push ports stack_entries ev (by rw [h4]; exact hev)
              cases r4 with
              | some e =>
                refine ⟨evs2 ++ evs3 ++ evs4, by simp [h4, List.append_assoc], ?_⟩
                intro ev hev
                rcases List.mem_append.mp hev with h | h
                · rcases List.mem_append.mp h with h' | h'
                  · exact hno2 ev h'
                  · exact hno3 ev h'
                · exact hno4 ev h
              | none =>
                refine ⟨evs2 ++ evs3 ++ evs4, by simp [h4, List.append_assoc], ?_⟩
                intro ev hev
                rcases List.mem_append.mp hev with h | h
                · rcases List.mem_append.mp h with h' | h'
                  · exact hno2 ev h'
                  · exact hno3 ev h'
                · exact hno4 ev h
  · intro pre bp suf e hdecomp hpre hfail
    have hpush := (pushPhase_spec ports plan.remote plan.bookmark_plans).2
      pre bp suf e hdecomp hpre hfail
    unfold execute_submission_plan
    rw [hpush]

/-- C7 counterexample: a plan entry whose `needs_push` flag is false is not
pushed — the executor completes with no push event at all, refuting "push
every bookmark regardless of any per-bookmark flag". -/
theorem execute_push_counterexample :
    c7Plan.bookmark_plans.length = 1 ∧
    (execute_submission_plan c7Plan c7Ports).2.isOk = true ∧
    (execute_submission_plan c7Plan c7Ports).1.all (fun ev => !ev.isPush) = true := by
  refine ⟨rfl, ?_, ?_⟩ <;> decide

end Stakk

namespace Stakk

/-- C3: `find_stack_comment` selects a comment carrying the marker only on
its *second* line — the implementation searches the whole body, although its
own documentation (and the spec) say the marker is looked for on the first
line only. -/
theorem find_stack_comment_whole_body :
    find_stack_comment [c3Comment] = some c3Comment ∧
    (∃ line, (rustLinesChars c3Comment.body.data).head? = some line ∧
      containsSubstr line commentDataMarkerStart = false) :=
  ⟨rfl, "hello".data, rfl, rfl⟩

/-- Helper for C1: when a traversal hits a merge commit or an already
tainted change, it returns no segments, no bridge, and a tainted set that
extends the incoming one with every change id seen up to and including the
triggering commit. -/
theorem traverseLoop_excluded (bn : String) (fc users : Finset String) :
    ∀ (changes : List LogEntry) (segs : List BookmarkSegment)
      (cur : Option BookmarkSegment) (seen : List String) (t0 : Finset String)
      (tr : TraversalResult) (t' : Finset String),
      traverseLoop bn fc users changes segs cur seen t0 = .ok (tr, t') →
      tr.excluded = true →
      tr.segments = [] ∧ tr.already_seen_change_id = none ∧
      (∀ x ∈ t0, x ∈ t') ∧ (∀ x ∈ seen, x ∈ t') ∧
      ∃ i c, changes[i]? = some c ∧
        (c.parents.length > 1 ∨ c.change_id ∈ t0) ∧
        ∀ c2 ∈ changes.take (i + 1), c2.change_id ∈ t' := by
  intro changes
  induction changes with
  | nil =>
    intro segs cur seen t0 tr t' h hex
    simp only [traverseLoop, Except.ok.injEq, Prod.mk.injEq] at h
    obtain ⟨h1, _⟩ := h
    rw [← h1] at hex
    cases hex
  | cons c rest ih =>
    intro segs cur seen t0 tr t' h hex
    simp only [traverseLoop] at h
    by_cases hm : c.parents.length > 1 ∨ c.change_id ∈ t0
    · rw [if_pos hm] at h
      simp only [Except.ok.injEq, Prod.mk.injEq] at h
      obtain ⟨h1, h2⟩ := h
      subst h1
      subst h2
      refine ⟨rfl, rfl, ?_, ?_, 0, c, List.getElem?_cons_zero, hm, ?_⟩
      · intro x hx
        exact Finset.mem_union_left _ hx
      · intro x hx
        refine Finset.mem_union_right _ ?_
        rw [List.mem_toFinset]
        exact List.mem_append_left _ hx
      · intro c2 hc2
        simp only [List.take_succ_cons, List.take_zero, List.mem_singleton] at hc2
        subst hc2
        refine Finset.mem_union_right _ ?_
        rw [List.mem_toFinset]
        exact List.mem_append_right _ (List.mem_singleton_self _)
    · rw [if_neg hm] at h
      have step : ∀ (segs' : List BookmarkSegment) (cur' : Option BookmarkSegment),
          traverseLoop bn fc users rest segs' cur' (seen ++ [c.change_id]) t0 = .ok (tr, t') →
          tr.segments = [] ∧ tr.already_seen_change_id = none ∧
          (∀ x ∈ t0, x ∈ t') ∧ (∀ x ∈ seen, x ∈ t') ∧
          ∃ i c0, (c :: rest)[i]? = some c0 ∧
            (c0.parents.length > 1 ∨ c0.change_id ∈ t0) ∧
            ∀ c2 ∈ (c :: rest).take (i + 1), c2.change_id ∈ t' := by
        intro segs' cur' hrec
        obtain ⟨e1, e2, e3, e4, i, c0, hi, htrig, htake⟩ :=
          ih segs' cur' (seen ++ [c.change_id]) t0 tr t' hrec hex
        have hcid : c.change_id ∈ t' := e4 c.change_id (List.mem_append_right _ (List.mem_singleton_self _))
        refine ⟨e1, e2, e3, fun x hx => e4 x (List.mem_append_left _ hx),
          i + 1, c0, ?_, htrig, ?_⟩
        · simpa using hi
        · intro c2 hc2
          simp only [List.take_succ_cons, List.mem_cons] at hc2
          cases hc2 with
          | inl hc2 => subst hc2; exact hcid
          | inr hc2 => exact htake c2 hc2
      by_cases hub : (c.local_bookmark_names.filter (fun n => n ∈ users)).isEmpty = true
      · rw [if_pos hub] at h
        cases cur with
        | some seg => exact step _ _ h
        | none => cases h
      · rw [if_neg hub] at h
        by_cases hcol : (c.local_bookmark_names.filter (fun n => n ∈ users)).any
            (fun n => n ∈ fc) = true
        · rw [if_pos hcol] at h
          simp only [Except.ok.injEq, Prod.mk.injEq] at h
          obtain ⟨h1, _⟩ := h
          rw [← h1] at hex
          cases hex
        · rw [if_neg hcol] at h
          exact step _ _ h

/-- C1: an excluded traversal (merge commit or already-tainted change) adds
every change id seen in this traversal, including the triggering commit's,
to the tainted set, increments `excluded_bookmark_count` by exactly one, and
leaves the graph's segments, adjacency list, fully-collected set and roots
unchanged — no partial segment list or bridge survives. -/
theorem build_excluded_traversal_spec (vcsLog : String → List LogEntry)
    (users : Finset String) (st : BuildState) (b : Bookmark)
    (rest : List Bookmark) (tr : TraversalResult) (t' : Finset String)
    (hb : b.name ∉ st.fully_collected)
    (ht : traverse_and_discover_segments b (vcsLog b.commit_id)
      st.fully_collected st.tainted_change_ids users = .ok (tr, t'))
    (hex : tr.excluded = true) :
    tr.segments = [] ∧ tr.already_seen_change_id = none ∧
    buildLoop vcsLog users (b :: rest) st =
      buildLoop vcsLog users rest
        { st with tainted_change_ids := t',
                  excluded_bookmark_count := st.excluded_bookmark_count + 1 } ∧
    ({ st with tainted_change_ids := t',
               excluded_bookmark_count := st.excluded_bookmark_count + 1 } :
      BuildState).segments = st.segments ∧
    ({ st with tainted_change_ids := t',
               excluded_bookmark_count := st.excluded_bookmark_count + 1 } :
      BuildState).adjacency_list = st.adjacency_list ∧
    ({ st with tainted_change_ids := t',
               excluded_bookmark_count := st.excluded_bookmark_count + 1 } :
      BuildState).fully_collected = st.fully_collected ∧
    (∀ x ∈ st.tainted_change_ids, x ∈ t') ∧
    ∃ i c, (vcsLog b.commit_id)[i]? = some c ∧
      (c.parents.length > 1 ∨ c.change_id ∈ st.tainted_change_ids) ∧
      ∀ c2 ∈ (vcsLog b.commit_id).take (i + 1), c2.change_id ∈ t' := by
  obtain ⟨e1, e2, e3, _, hwit⟩ :=
    traverseLoop_excluded b.name st.fully_collected users (vcsLog b.commit_id)
      [] none [] st.tainted_change_ids tr t' ht hex
  refine ⟨e1, e2, ?_, rfl, rfl, rfl, e3, hwit⟩
  simp only [buildLoop, if_neg hb]
  rw [show traverse_and_discover_segments b (vcsLog b.commit_id)
    st.fully_collected st.tainted_change_ids users = .ok (tr, t') from ht]
  simp [hex]

/-- C1 witness: the merge-commit fixture instantiates the theorem. -/
theorem build_excluded_traversal_spec_witness :
    (⟨[], none, true⟩ : TraversalResult).segments = [] ∧
    (⟨[], none, true⟩ : TraversalResult).already_seen_change_id = none ∧
    buildLoop c1Log {"bm_m"} [c1Bookmark] c1State =
      buildLoop c1Log {"bm_m"} []
        { c1State with tainted_change_ids := {"ch_m"},
                       excluded_bookmark_count := c1State.excluded_bookmark_count + 1 } ∧
    ({ c1State with tainted_change_ids := {"ch_m"},
                    excluded_bookmark_count := c1State.excluded_bookmark_count + 1 } :
      BuildState).segments = c1State.segments ∧
    ({ c1State with tainted_change_ids := {"ch_m"},
                    excluded_bookmark_count := c1State.excluded_bookmark_count + 1 } :
      BuildState).adjacency_list = c1State.adjacency_list ∧
    ({ c1State with tainted_change_ids := {"ch_m"},
                    excluded_bookmark_count := c1State.excluded_bookmark_count + 1 } :
      BuildState).fully_collected = c1State.fully_collected ∧
    (∀ x ∈ c1State.tainted_change_ids, x ∈ ({"ch_m"} : Finset String)) ∧
    ∃ i c, (c1Log c1Bookmark.commit_id)[i]? = some c ∧
      (c.parents.length > 1 ∨ c.change_id ∈ c1State.tainted_change_ids) ∧
      ∀ c2 ∈ (c1Log c1Bookmark.commit_id).take (i + 1),
        c2.change_id ∈ ({"ch_m"} : Finset String) :=
  build_excluded_traversal_spec c1Log {"bm_m"} c1State c1Bookmark []
    ⟨[], none, true⟩ {"ch_m"} (by simp [c1State]) rfl rfl

end Stakk

namespace Stakk

/-- C4: `parse_stack_comment` is total and returns `None` exactly when a
stage fails — first line missing, marker prefix or postfix not found,
invalid base64, invalid UTF-8, JSON that does not parse, or a JSON value
that is not a `StackCommentData`; it returns `Some` only when every stage
succeeds. -/
theorem parse_stack_comment_stages (body : String) :
    ((rustLinesChars body.data).head? = none → parse_stack_comment body = none) ∧
    (∀ line, (rustLinesChars body.data).head? = some line →
      findSubstrIdx commentDataMarkerStart line = none →
      parse_stack_comment body = none) ∧
    (∀ line idx, (rustLinesChars body.data).head? = some line →
      findSubstrIdx commentDataMarkerStart line = some idx →
      findSubstrIdx commentDataMarkerEnd
        (line.drop (idx + commentDataMarkerStart.length)) = none →
      parse_stack_comment body = none) ∧
    (∀ line idx endIdx, (rustLinesChars body.data).head? = some line →
      findSubstrIdx commentDataMarkerStart line = some idx →
      findSubstrIdx commentDataMarkerEnd
        (line.drop (idx + commentDataMarkerStart.length)) = some endIdx →
      base64Decode ((line.drop (idx + commentDataMarkerStart.length)).take endIdx) = none →
      parse_stack_comment body = none) ∧
    (∀ line idx endIdx bytes, (rustLinesChars body.data).head? = some line →
      findSubstrIdx commentDataMarkerStart line = some idx →
      findSubstrIdx commentDataMarkerEnd
        (line.drop (idx + commentDataMarkerStart.length)) = some endIdx →
      base64Decode ((line.drop (idx + commentDataMarkerStart.length)).take endIdx) = some bytes →
      utf8Decode bytes = none →
      parse_stack_comment body = none) ∧
    (∀ line idx endIdx bytes jsonChars, (rustLinesChars body.data).head? = some line →
      findSubstrIdx commentDataMarkerStart line = some idx →
      findSubstrIdx commentDataMarkerEnd
        (line.drop (idx + commentDataMarkerStart.length)) = some endIdx →
      base64Decode ((line.drop (idx + commentDataMarkerStart.length)).take endIdx) = some bytes →
      utf8Decode bytes = some jsonChars →
      parseJsonDoc jsonChars = none →
      parse_stack_comment body = none) ∧
    (∀ line idx endIdx bytes jsonChars j, (rustLinesChars body.data).head? = some line →
      findSubstrIdx commentDataMarkerStart line = some idx →
      findSubstrIdx commentDataMarkerEnd
        (line.drop (idx + commentDataMarkerStart.length)) = some endIdx →
      base64Decode ((line.drop (idx + commentDataMarkerStart.length)).take endIdx) = some bytes →
      utf8Decode bytes = some jsonChars →
      parseJsonDoc jsonChars = some j →
      dataOfJson j = none →
      parse_stack_comment body = none) ∧
    (∀ d, parse_stack_comment body = some d →
      ∃ line idx endIdx bytes jsonChars j,
        (rustLinesChars body.data).head? = some line ∧
        findSubstrIdx commentDataMarkerStart line = some idx ∧
        findSubstrIdx commentDataMarkerEnd
          (line.drop (idx + commentDataMarkerStart.length)) = some endIdx ∧
        base64Decode ((line.drop (idx + commentDataMarkerStart.length)).take endIdx) = some bytes ∧
        utf8Decode bytes = some jsonChars ∧
        parseJsonDoc jsonChars = some j ∧
        dataOfJson j = some d) := by
  refine ⟨?_, ?_, ?_, ?_, ?_, ?_, ?_, ?_⟩
  · intro h; simp [parse_stack_comment, h]
  · intro line h1 h2; simp [parse_stack_comment, h1, h2]
  · intro line idx h1 h2 h3; simp [parse_stack_comment, h1, h2, h3]
  · intro line idx endIdx h1 h2 h3 h4; simp [parse_stack_comment, h1, h2, h3, h4]
  · intro line idx endIdx bytes h1 h2 h3 h4 h5
    simp [parse_stack_comment, h1, h2, h3, h4, h5]
  · intro line idx endIdx bytes jsonChars h1 h2 h3 h4 h5 h6
    simp [parse_stack_comment, h1, h2, h3, h4, h5, h6]
  · intro line idx endIdx bytes jsonChars j h1 h2 h3 h4 h5 h6 h7
    simp [parse_stack_comment, h1, h2, h3, h4, h5, h6, h7]
  · intro d hd
    unfold parse_stack_comment at hd
    cases h1 : (rustLinesChars body.data).head? with
    | none => rw [h1] at hd; cases hd
    | some line =>
      rw [h1] at hd
      simp only [Option.bind_eq_bind, Option.some_bind] at hd
      cases h2 : findSubstrIdx commentDataMarkerStart line with
      | none => rw [h2] at hd; cases hd
      | some idx =>
        rw [h2] at hd
        simp only [Option.some_bind] at hd
        cases h3 : findSubstrIdx commentDataMarkerEnd
            (line.drop (idx + commentDataMarkerStart.length)) with
        | none => rw [h3] at hd; cases hd
        | some endIdx =>
          rw [h3] at hd
          simp only [Option.some_bind] at hd
          cases h4 : base64Decode
              ((line.drop (idx + commentDataMarkerStart.length)).take endIdx) with
          | none => rw [h4] at hd; cases hd
          | some bytes =>
            rw [h4] at hd
            simp only [Option.some_bind] at hd
            cases h5 : utf8Decode bytes with
            | none => rw [h5] at hd; cases hd
            | some jsonChars =>
              rw [h5] at hd
              simp only [Option.some_bind] at hd
              cases h6 : parseJsonDoc jsonChars with
              | none => rw [h6] at hd; cases hd
              | some j =>
                rw [h6] at hd
                simp only [Option.some_bind] at hd
                exact ⟨line, idx, endIdx, bytes, jsonChars, j,
                  rfl, h2, h3, h4, h5, h6, hd⟩

end Stakk

namespace Stakk

/-- Helper: `Char.ofNat` then `toNat` is the identity on valid scalars. -/
theorem char_toNat_ofNat_of_valid (n : Nat) (h : n.isValidChar) :
    (Char.ofNat n).toNat = n := by
  rw [Char.ofNat, dif_pos h]
  rfl

/-- Helper: small codes are valid scalars. -/
theorem small_isValidChar (n : Nat) (h : n < 0xD800) : n.isValidChar :=
  Or.inl h

/-- Helper: the digits emitted by `natDecimalAux`, with their value. -/
theorem natDecimalAux_spec : ∀ (fuel n : Nat) (acc : List Char), n < fuel →
    ∃ ds, natDecimalAux fuel n acc = ds ++ acc ∧ ds ≠ [] ∧
      (∀ c ∈ ds, 48 ≤ c.toNat ∧ c.toNat ≤ 57) ∧
      ∀ a0 : Nat, ds.foldl (fun a c => a * 10 + (c.toNat - 48)) a0 =
        a0 * 10 ^ ds.length + n := by
  intro fuel
  induction fuel with
  | zero => intro n acc h; omega
  | succ fuel ih =>
    intro n acc h
    by_cases h10 : n < 10
    · refine ⟨[Char.ofNat (48 + n % 10)], by simp [natDecimalAux, h10], by simp, ?_, ?_⟩
      · intro c hc
        simp only [List.mem_singleton] at hc
        subst hc
        rw [char_toNat_ofNat_of_valid _ (small_isValidChar _ (by omega))]
        omega
      · intro a0
        simp only [List.foldl_cons, List.foldl_nil, List.length_cons,
          List.length_nil, pow_one]
        rw [char_toNat_ofNat_of_valid _ (small_isValidChar _ (by omega))]
        omega
    · have hlt : n / 10 < fuel := by omega
      obtain ⟨ds', heq, hne, hdig, hval⟩ := ih (n / 10) (Char.ofNat (48 + n % 10) :: acc) hlt
      refine ⟨ds' ++ [Char.ofNat (48 + n % 10)], ?_, by simp, ?_, ?_⟩
      · rw [natDecimalAux]
        simp only [h10, if_false]
        rw [heq, List.append_assoc, List.singleton_append]
      · intro c hc
        rcases List.mem_append.mp hc with h' | h'
        · exact hdig c h'
        · simp only [List.mem_singleton] at h'
          subst h'
          rw [char_toNat_ofNat_of_valid _ (small_isValidChar _ (by omega))]
          omega
      · intro a0
        rw [List.foldl_append, hval a0]
        simp only [List.foldl_cons, List.foldl_nil, List.length_append,
          List.length_cons, List.length_nil]
        rw [char_toNat_ofNat_of_valid _ (small_isValidChar _ (by omega))]
        have h48 : 48 + n % 10 - 48 = n % 10 := by omega
        rw [h48]
        have hpow : 10 ^ (ds'.length + (0 + 1)) = 10 ^ ds'.length * 10 := by
          rw [Nat.zero_add, pow_succ]
        rw [hpow]
        have hdm : n / 10 * 10 + n % 10 = n := by omega
        calc (a0 * 10 ^ ds'.length + n / 10) * 10 + n % 10
            = a0 * (10 ^ ds'.length * 10) + (n / 10 * 10 + n % 10) := by ring
          _ = a0 * (10 ^ ds'.length * 10) + n := by rw [hdm]

/-- Helper: `natDecimal` produces nonempty digits representing `n`. -/
theorem natDecimal_spec (n : Nat) :
    natDecimal n ≠ [] ∧ (∀ c ∈ natDecimal n, 48 ≤ c.toNat ∧ c.toNat ≤ 57) ∧
    ∀ a0 : Nat, (natDecimal n).foldl (fun a c => a * 10 + (c.toNat - 48)) a0 =
      a0 * 10 ^ (natDecimal n).length + n := by
  obtain ⟨ds, heq, hne, hdig, hval⟩ := natDecimalAux_spec (n + 1) n [] (by omega)
  rw [natDecimal, heq, List.append_nil]
  exact ⟨hne, hdig, hval⟩

/-- Helper: `parseDigits` consumes exactly a run of digits. -/
theorem parseDigits_spec : ∀ (ds : List Char) (acc : Nat) (rest : List Char),
    (∀ c ∈ ds, 48 ≤ c.toNat ∧ c.toNat ≤ 57) →
    (∀ c rest2, rest = c :: rest2 → digitVal c = none) →
    parseDigits (ds ++ rest) acc =
      (ds.foldl (fun a c => a * 10 + (c.toNat - 48)) acc, rest) := by
  intro ds
  induction ds with
  | nil =>
    intro acc rest _ hrest
    cases rest with
    | nil => rfl
    | cons c rest2 =>
      simp only [List.nil_append, parseDigits]
      rw [hrest c rest2 rfl]
      rfl
  | cons d ds' ih =>
    intro acc rest hdigs hrest
    have hd := hdigs d (List.mem_cons_self _ _)
    have hdv : digitVal d = some (d.toNat - 48) := by
      unfold digitVal
      rw [if_pos (by omega)]
    have hstep : parseDigits ((d :: ds') ++ rest) acc =
        parseDigits (ds' ++ rest) (acc * 10 + (d.toNat - 48)) := by
      rw [List.cons_append, parseDigits, hdv]
    rw [hstep, ih (acc * 10 + (d.toNat - 48)) rest
      (fun c hc => hdigs c (List.mem_cons_of_mem _ hc)) hrest]
    rfl

/-- Helper: one escaped character parses back to itself. -/
theorem parseStringBody_escapeChar (c : Char) (rest : List Char) :
    parseStringBody (escapeChar c ++ rest) =
      (parseStringBody rest).map (fun p => (c :: p.1, p.2)) := by
  unfold escapeChar
  by_cases hq : c = '"'
  · subst hq
    simp only [if_pos rfl, List.cons_append, List.nil_append]
    conv_lhs => unfold parseStringBody
    simp
  · rw [if_neg hq]
    by_cases hb : c = '\\'
    · subst hb
      simp only [if_pos rfl, List.cons_append, List.nil_append]
      conv_lhs => unfold parseStringBody
      simp
    · rw [if_neg hb]
      by_cases h8 : c.toNat = 8
      · rw [if_pos h8]
        have hc : Char.ofNat 8 = c := by rw [← h8, Char.ofNat_toNat]
        simp only [List.cons_append, List.nil_append]
        conv_lhs => unfold parseStringBody
        simp
        rw [hc]
      · rw [if_neg h8]
        by_cases h9 : c.toNat = 9
        · rw [if_pos h9]
          have hc : ('\t' : Char) = c := by rw [← Char.ofNat_toNat c, h9]
          simp only [List.cons_append, List.nil_append]
          conv_lhs => unfold parseStringBody
          simp
          rw [hc]
        · rw [if_neg h9]
          by_cases h10 : c.toNat = 10
          · rw [if_pos h10]
            have hc : ('\n' : Char) = c := by rw [← Char.ofNat_toNat c, h10]
            simp only [List.cons_append, List.nil_append]
            conv_lhs => unfold parseStringBody
            simp
            rw [hc]
          · rw [if_neg h10]
            by_cases h12 : c.toNat = 12
            · rw [if_pos h12]
              have hc : Char.ofNat 12 = c := by rw [← h12, Char.ofNat_toNat]
              simp only [List.cons_append, List.nil_append]
              conv_lhs => unfold parseStringBody
              simp
              rw [hc]
            · rw [if_neg h12]
              by_cases h13 : c.toNat = 13
              · rw [if_pos h13]
                have hc : Char.ofNat 13 = c := by rw [← h13, Char.ofNat_toNat]
                simp only [List.cons_append, List.nil_append]
                conv_lhs => unfold parseStringBody
                simp
                rw [hc]
              · rw [if_neg h13]
                by_cases hc32 : c.toNat < 32
                · rw [if_pos hc32]
                  have hhex : ∀ x : Nat, x < 16 → hexVal (hexDigitChar x) = some x := by
                    decide
                  have hhi := hhex (c.toNat / 16) (by omega)
                  have hlo := hhex (c.toNat % 16) (by omega)
                  have h0 : hexVal '0' = some 0 := rfl
                  simp only [List.cons_append, List.nil_append]
                  conv_lhs => unfold parseStringBody
                  simp only [h0, hhi, hlo]
                  simp only [show (('\\' : Char) = '"') = False by simp,
                    show (('u' : Char) = '"') = False by simp,
                    show (('u' : Char) = '\\') = False by simp,
                    show (('u' : Char) = '/') = False by simp,
                    show (('u' : Char) = 'b') = False by simp,
                    show (('u' : Char) = 'f') = False by simp,
                    show (('u' : Char) = 'n') = False by simp,
                    show (('u' : Char) = 'r') = False by simp,
                    show (('u' : Char) = 't') = False by simp,
                    show (('u' : Char) = 'u') = True by simp,
                    show (('\\' : Char) = '\\') = True by simp,
                    if_true, if_false, ite_false, ite_true]
                  rw [if_neg (by omega)]
                  have hval : 0 * 4096 + 0 * 256 + c.toNat / 16 * 16 + c.toNat % 16 = c.toNat := by
                    omega
                  rw [hval, Char.ofNat_toNat]
                · rw [if_neg hc32]
                  simp only [List.singleton_append]
                  conv_lhs => unfold parseStringBody
                  rw [if_neg hq, if_neg hb, if_pos (by omega)]

end Stakk

namespace Stakk

/-- Helper: an escaped string body parses back to itself up to the closing
quote. -/
theorem parseStringBody_escapeString : ∀ (s rest : List Char),
    parseStringBody (escapeString s ++ ('"' :: rest)) = some (s, rest) := by
  intro s
  induction s with
  | nil =>
    intro rest
    show parseStringBody ('"' :: rest) = some ([], rest)
    conv_lhs => unfold parseStringBody
    simp
  | cons c s' ih =>
    intro rest
    have hesc : escapeString (c :: s') = escapeChar c ++ escapeString s' := by
      simp [escapeString]
    rw [hesc, List.append_assoc, parseStringBody_escapeChar, ih]
    rfl

/-- Helper: the base64 alphabet decodes back to the index. -/
theorem b64Val_b64Char : ∀ n, n < 64 → b64Val (b64Char n) = some n := by decide

/-- Helper: characters of the base64 alphabet are not `=`, newline or
space. -/
theorem b64Char_props (n : Nat) :
    b64Char n ≠ '=' ∧ (b64Char n).toNat ≠ 10 ∧ (b64Char n).toNat ≠ 32 := by
  have hne : ∀ (k : Nat), k.isValidChar → k ≠ 61 → k ≠ 10 → k ≠ 32 →
      Char.ofNat k ≠ '=' ∧ (Char.ofNat k).toNat ≠ 10 ∧ (Char.ofNat k).toNat ≠ 32 := by
    intro k hv h61 h10 h32
    have ht := char_toNat_ofNat_of_valid k hv
    refine ⟨?_, by omega, by omega⟩
    intro heq
    have : (Char.ofNat k).toNat = ('=' : Char).toNat := by rw [heq]
    rw [ht] at this
    exact h61 (by simpa using this)
  unfold b64Char
  by_cases h1 : n < 26
  · rw [if_pos h1]; exact hne _ (small_isValidChar _ (by omega)) (by omega) (by omega) (by omega)
  · rw [if_neg h1]
    by_cases h2 : n < 52
    · rw [if_pos h2]; exact hne _ (small_isValidChar _ (by omega)) (by omega) (by omega) (by omega)
    · rw [if_neg h2]
      by_cases h3 : n < 62
      · rw [if_pos h3]; exact hne _ (small_isValidChar _ (by omega)) (by omega) (by omega) (by omega)
      · rw [if_neg h3]
        by_cases h4 : n = 62
        · rw [if_pos h4]; refine ⟨by decide, by decide, by decide⟩
        · rw [if_neg h4]; refine ⟨by decide, by decide, by decide⟩

/-- Helper: every character of a base64 encoding is neither newline nor
space. -/
theorem base64Encode_chars : ∀ (bs : List Nat) (ch : Char), ch ∈ base64Encode bs →
    ch.toNat ≠ 10 ∧ ch.toNat ≠ 32
  | [], ch, h => by simp [base64Encode] at h
  | [a], ch, h => by
    simp only [base64Encode, List.mem_cons, List.not_mem_nil, or_false] at h
    rcases h with h | h | h | h
    · subst h; exact (b64Char_props _).2
    · subst h; exact (b64Char_props _).2
    · subst h; exact ⟨by decide, by decide⟩
    · subst h; exact ⟨by decide, by decide⟩
  | [a, b], ch, h => by
    simp only [base64Encode, List.mem_cons, List.not_mem_nil, or_false] at h
    rcases h with h | h | h | h
    · subst h; exact (b64Char_props _).2
    · subst h; exact (b64Char_props _).2
    · subst h; exact (b64Char_props _).2
    · subst h; exact ⟨by decide, by decide⟩
  | a :: b :: c :: rest, ch, h => by
    simp only [base64Encode, List.mem_cons] at h
    rcases h with h | h | h | h | h
    · subst h; exact (b64Char_props _).2
    · subst h; exact (b64Char_props _).2
    · subst h; exact (b64Char_props _).2
    · subst h; exact (b64Char_props _).2
    · exact base64Encode_chars rest ch h

/-- Helper: strict base64 decoding inverts the encoder on byte input. -/
theorem base64_roundtrip : ∀ (bs : List Nat), (∀ x ∈ bs, x < 256) →
    base64Decode (base64Encode bs) = some bs
  | [], _ => rfl
  | [a], h => by
    have ha : a < 256 := h a (by simp)
    show base64Decode [b64Char (a / 4), b64Char (a % 4 * 16), '=', '='] = some [a]
    have hv1 := b64Val_b64Char (a / 4) (by omega)
    have hv2 := b64Val_b64Char (a % 4 * 16) (by omega)
    have hbyte : a / 4 * 4 + a % 4 * 16 / 16 = a := by omega
    conv_lhs => unfold base64Decode
    rw [hv1, hv2]
    simp [show a % 4 * 16 % 16 = 0 from by omega, hbyte]
    omega
  | [a, b], h => by
    have ha : a < 256 := h a (by simp)
    have hb : b < 256 := h b (by simp)
    show base64Decode [b64Char (a / 4), b64Char (a % 4 * 16 + b / 16),
      b64Char (b % 16 * 4), '='] = some [a, b]
    have hv1 := b64Val_b64Char (a / 4) (by omega)
    have hv2 := b64Val_b64Char (a % 4 * 16 + b / 16) (by omega)
    have hv3 := b64Val_b64Char (b % 16 * 4) (by omega)
    have e1 : a / 4 * 4 + (a % 4 * 16 + b / 16) / 16 = a := by omega
    have e2 : (a % 4 * 16 + b / 16) % 16 * 16 + b % 16 * 4 / 4 = b := by omega
    conv_lhs => unfold base64Decode
    rw [hv1, hv2]
    simp [(b64Char_props (b % 16 * 4)).1, hv3,
      show b % 16 * 4 % 4 = 0 from by omega, e1, e2]
    omega
  | [a, b, c], h => by
    have ha : a < 256 := h a (by simp)
    have hb : b < 256 := h b (by simp)
    have hc : c < 256 := h c (by simp)
    show base64Decode (b64Char (a / 4) :: b64Char (a % 4 * 16 + b / 16) ::
      b64Char (b % 16 * 4 + c / 64) :: b64Char (c % 64) :: base64Encode []) =
      some [a, b, c]
    have hv1 := b64Val_b64Char (a / 4) (by omega)
    have hv2 := b64Val_b64Char (a % 4 * 16 + b / 16) (by omega)
    have hv3 := b64Val_b64Char (b % 16 * 4 + c / 64) (by omega)
    have hv4 := b64Val_b64Char (c % 64) (by omega)
    have e1 : a / 4 * 4 + (a % 4 * 16 + b / 16) / 16 = a := by omega
    have e2 : (a % 4 * 16 + b / 16) % 16 * 16 + (b % 16 * 4 + c / 64) / 4 = b := by omega
    have e3 : (b % 16 * 4 + c / 64) % 4 * 64 + c % 64 = c := by omega
    conv_lhs => unfold base64Decode
    rw [hv1, hv2]
    simp [(b64Char_props (b % 16 * 4 + c / 64)).1, (b64Char_props (c % 64)).1,
      hv3, hv4, base64Decode, e1, e2, e3]
  | a :: b :: c :: d :: rest, h => by
    have ha : a < 256 := h a (by simp)
    have hb : b < 256 := h b (by simp)
    have hc : c < 256 := h c (by simp)
    have hrec := base64_roundtrip (d :: rest) (fun x hx => h x (by simp [hx]))
    show base64Decode (b64Char (a / 4) :: b64Char (a % 4 * 16 + b / 16) ::
      b64Char (b % 16 * 4 + c / 64) :: b64Char (c % 64) ::
      base64Encode (d :: rest)) = some (a :: b :: c :: d :: rest)
    have hv1 := b64Val_b64Char (a / 4) (by omega)
    have hv2 := b64Val_b64Char (a % 4 * 16 + b / 16) (by omega)
    have hv3 := b64Val_b64Char (b % 16 * 4 + c / 64) (by omega)
    have hv4 := b64Val_b64Char (c % 64) (by omega)
    have e1 : a / 4 * 4 + (a % 4 * 16 + b / 16) / 16 = a := by omega
    have e2 : (a % 4 * 16 + b / 16) % 16 * 16 + (b % 16 * 4 + c / 64) / 4 = b := by omega
    have e3 : (b % 16 * 4 + c / 64) % 4 * 64 + c % 64 = c := by omega
    conv_lhs => unfold base64Decode
    rw [hv1, hv2]
    simp [(b64Char_props (b % 16 * 4 + c / 64)).1, (b64Char_props (c % 64)).1,
      hv3, hv4, hrec, e1, e2, e3]

set_option maxRecDepth 4000 in
/-- Helper: UTF-8 decoding inverts the one-character encoder, with any
byte tail. -/
theorem utf8Decode_encodeChar (c : Char) (rest : List Nat) :
    utf8Decode (utf8EncodeChar c.toNat ++ rest) =
      (utf8Decode rest).map (fun tl => c :: tl) := by
  have hv : c.toNat < 0xD800 ∨ (0xE000 ≤ c.toNat ∧ c.toNat < 0x110000) := c.valid
  have hofNat : Char.ofNat c.toNat = c := Char.ofNat_toNat c
  set n := c.toNat with hn
  by_cases h1 : n < 0x80
  · have he : utf8EncodeChar n = [n] := by rw [utf8EncodeChar, if_pos h1]
    rw [he]
    simp only [List.singleton_append]
    rw [utf8Decode.eq_def]
    simp only []
    rw [if_pos h1]
    simp only [hofNat]
  · by_cases h2 : n < 0x800
    · have he : utf8EncodeChar n = [0xC0 + n / 64, 0x80 + n % 64] := by
        rw [utf8EncodeChar, if_neg h1, if_pos h2]
      have c1 : ¬(0xC0 + n / 64 < 0x80) := by omega
      have c2 : ¬(0xC0 + n / 64 < 0xC2) := by omega
      have c3 : 0xC0 + n / 64 < 0xE0 := by omega
      have c4 : utf8IsCont (0x80 + n % 64) = true := by
        simp only [utf8IsCont, decide_eq_true_eq]; omega
      have c5 : (0xC0 + n / 64 - 0xC0) * 64 + (0x80 + n % 64 - 0x80) = n := by omega
      rw [he]
      simp only [List.cons_append, List.nil_append]
      rw [utf8Decode.eq_def]
      simp only []
      rw [if_neg c1, if_neg c2, if_pos c3, if_pos c4]
      simp only [c5, hofNat]
    · by_cases h3 : n < 0x10000
      · have he : utf8EncodeChar n =
            [0xE0 + n / 4096, 0x80 + n / 64 % 64, 0x80 + n % 64] := by
          rw [utf8EncodeChar, if_neg h1, if_neg h2, if_pos h3]
        have c1 : ¬(0xE0 + n / 4096 < 0x80) := by omega
        have c2 : ¬(0xE0 + n / 4096 < 0xC2) := by omega
        have c3 : ¬(0xE0 + n / 4096 < 0xE0) := by omega
        have c4 : 0xE0 + n / 4096 < 0xF0 := by omega
        have c5 : utf8IsCont (0x80 + n / 64 % 64) = true := by
          simp only [utf8IsCont, decide_eq_true_eq]; omega
        have c6 : utf8IsCont (0x80 + n % 64) = true := by
          simp only [utf8IsCont, decide_eq_true_eq]; omega
        have c7 : (0xE0 + n / 4096 - 0xE0) * 4096 + (0x80 + n / 64 % 64 - 0x80) * 64 +
            (0x80 + n % 64 - 0x80) = n := by omega
        have c8 : 0x800 ≤ n := by omega
        have c9 : ¬(0xD800 ≤ n ∧ n < 0xE000) := by omega
        rw [he]
        simp only [List.cons_append, List.nil_append]
        rw [utf8Decode.eq_def]
        simp only []
        rw [if_neg c1, if_neg c2, if_neg c3, if_pos c4, if_pos ⟨c5, c6⟩]
        simp only [c7]
        rw [if_pos ⟨c8, c9⟩]
        simp only [hofNat]
      · have h4 : n < 0x110000 := by omega
        have he : utf8EncodeChar n =
            [0xF0 + n / 262144, 0x80 + n / 4096 % 64, 0x80 + n / 64 % 64,
              0x80 + n % 64] := by
          rw [utf8EncodeChar, if_neg h1, if_neg h2, if_neg h3]
        have c1 : ¬(0xF0 + n / 262144 < 0x80) := by omega
        have c2 : ¬(0xF0 + n / 262144 < 0xC2) := by omega
        have c3 : ¬(0xF0 + n / 262144 < 0xE0) := by omega
        have c4 : ¬(0xF0 + n / 262144 < 0xF0) := by omega
        have c5 : 0xF0 + n / 262144 < 0xF5 := by omega
        have c6 : utf8IsCont (0x80 + n / 4096 % 64) = true := by
          simp only [utf8IsCont, decide_eq_true_eq]; omega
        have c7 : utf8IsCont (0x80 + n / 64 % 64) = true := by
          simp only [utf8IsCont, decide_eq_true_eq]; omega
        have c8 : utf8IsCont (0x80 + n % 64) = true := by
          simp only [utf8IsCont, decide_eq_true_eq]; omega
        have c9 : (0xF0 + n / 262144 - 0xF0) * 262144 +
            (0x80 + n / 4096 % 64 - 0x80) * 4096 + (0x80 + n / 64 % 64 - 0x80) * 64 +
            (0x80 + n % 64 - 0x80) = n := by omega
        have c10 : 0x10000 ≤ n := by omega
        rw [he]
        simp only [List.cons_append, List.nil_append]
        rw [utf8Decode.eq_def]
        simp only []
        rw [if_neg c1, if_neg c2, if_neg c3, if_neg c4, if_pos c5, if_pos ⟨c6, c7, c8⟩]
        simp only [c9]
        rw [if_pos ⟨c10, h4⟩]
        simp only [hofNat]

/-- Helper: UTF-8 decoding inverts encoding on whole strings. -/
theorem utf8_roundtrip : ∀ (cs : List Char), utf8Decode (utf8Encode cs) = some cs
  | [] => rfl
  | c :: cs => by
    show utf8Decode (utf8EncodeChar c.toNat ++ utf8Encode cs) = some (c :: cs)
    rw [utf8Decode_encodeChar, utf8_roundtrip cs]
    rfl

/-- Helper: all bytes of a one-character UTF-8 encoding are bytes. -/
theorem utf8EncodeChar_lt (c : Char) : ∀ x ∈ utf8EncodeChar c.toNat, x < 256 := by
  have hv : c.toNat < 0xD800 ∨ (0xE000 ≤ c.toNat ∧ c.toNat < 0x110000) := c.valid
  intro x hx
  unfold utf8EncodeChar at hx
  split_ifs at hx <;> simp only [List.mem_cons, List.not_mem_nil, or_false] at hx <;>
    omega

/-- Helper: all bytes of a UTF-8 encoding are bytes. -/
theorem utf8Encode_lt (cs : List Char) : ∀ x ∈ utf8Encode cs, x < 256 := by
  intro x hx
  simp only [utf8Encode, List.mem_flatten, List.mem_map] at hx
  obtain ⟨l, ⟨c, _, rfl⟩, hxl⟩ := hx
  exact utf8EncodeChar_lt c x hxl

/-- Helper: `skipWs` does not move past a non-whitespace head. -/
theorem skipWs_cons (c : Char) (rest : List Char)
    (h : ¬(c = ' ' ∨ c = '\t' ∨ c = '\n' ∨ c = '\r')) :
    skipWs (c :: rest) = c :: rest := by
  simp [skipWs, List.dropWhile_cons, h]

/-- Helper: `parseValue` on a serialized string literal. -/
theorem parseValue_str (fuel : Nat) (s rest : List Char) :
    parseValue (fuel + 1) ('"' :: (escapeString s ++ ('"' :: rest))) =
      some (.str s, rest) := by
  rw [parseValue.eq_def]
  simp only []
  rw [show skipWs ('"' :: (escapeString s ++ ('"' :: rest))) =
    '"' :: (escapeString s ++ ('"' :: rest)) from rfl]
  simp only []
  rw [if_neg (by decide), if_neg (by decide), if_pos trivial,
    parseStringBody_escapeString]
  rfl

/-- Helper: `parseValue` on a serialized decimal number followed by a
non-digit. -/
theorem parseValue_num (fuel n : Nat) (c : Char) (rest : List Char)
    (hc : digitVal c = none) :
    parseValue (fuel + 1) (natDecimal n ++ c :: rest) =
      some (.num false n, c :: rest) := by
  obtain ⟨hne, hdig, hval⟩ := natDecimal_spec n
  cases hnd : natDecimal n with
  | nil => exact absurd hnd hne
  | cons d0 ds =>
    have hd0 : 48 ≤ d0.toNat ∧ d0.toNat ≤ 57 := by
      refine hdig d0 ?_
      rw [hnd]; exact List.mem_cons_self _ _
    have hdigs : ∀ x ∈ ds, 48 ≤ x.toNat ∧ x.toNat ≤ 57 := by
      intro x hx
      refine hdig x ?_
      rw [hnd]; exact List.mem_cons_of_mem _ hx
    rw [parseValue.eq_def]
    simp only []
    rw [List.cons_append]
    rw [skipWs_cons _ _ (by rintro (h | h | h | h) <;> (subst h; exact absurd hd0 (by decide)))]
    simp only []
    rw [if_neg (by intro h; subst h; exact absurd hd0 (by decide)),
      if_neg (by intro h; subst h; exact absurd hd0 (by decide)),
      if_neg (by intro h; subst h; exact absurd hd0 (by decide)),
      if_neg (by intro h; subst h; exact absurd hd0 (by decide)),
      if_neg (by intro h; subst h; exact absurd hd0 (by decide)),
      if_neg (by intro h; subst h; exact absurd hd0 (by decide)),
      if_neg (by intro h; subst h; exact absurd hd0 (by decide))]
    rw [parseNumBody]
    have hdv : digitVal d0 = some (d0.toNat - 48) := by
      rw [digitVal, if_pos hd0]
    rw [hdv]
    simp only []
    rw [parseDigits_spec ds (d0.toNat - 48) (c :: rest) hdigs
      (by intro c2 rest2 h2; cases h2; exact hc)]
    have hfold : ds.foldl (fun a ch => a * 10 + (ch.toNat - 48)) (d0.toNat - 48) = n := by
      have h0 := hval 0
      rw [hnd] at h0
      rw [List.foldl_cons] at h0
      simpa using h0
    rw [hfold]

/-- Helper: `parseMembers` on the serialized members of one `StackEntry`. -/
theorem parseMembers_entry (fuel : Nat) (e : StackEntry) (rest : List Char) :
    parseMembers (fuel + 4)
      ('"' :: ("bookmark_name\":\"".data ++ (escapeString e.bookmark_name.data ++
        ("\",\"pr_url\":\"".data ++ (escapeString e.pr_url.data ++
          ("\",\"pr_number\":".data ++ (natDecimal e.pr_number ++ '\x7d' :: rest))))))) =
      some ([("bookmark_name".data, Json.str e.bookmark_name.data),
        ("pr_url".data, Json.str e.pr_url.data),
        ("pr_number".data, Json.num false e.pr_number)], rest) := by
  have h3 : parseMembers (fuel + 2)
      ('"' :: ("pr_number\":".data ++ (natDecimal e.pr_number ++ '\x7d' :: rest))) =
      some ([("pr_number".data, Json.num false e.pr_number)], rest) := by
    rw [parseMembers.eq_def]
    simp only []
    rw [show skipWs ('"' :: ("pr_number\":".data ++
        (natDecimal e.pr_number ++ '\x7d' :: rest))) =
      '"' :: ("pr_number\":".data ++ (natDecimal e.pr_number ++ '\x7d' :: rest)) from rfl]
    simp only [reduceIte]
    rw [show "pr_number\":".data ++ (natDecimal e.pr_number ++ '\x7d' :: rest) =
      escapeString "pr_number".data ++
        ('"' :: (':' :: (natDecimal e.pr_number ++ '\x7d' :: rest))) from rfl]
    rw [parseStringBody_escapeString]
    simp only []
    rw [show skipWs (':' :: (natDecimal e.pr_number ++ '\x7d' :: rest)) =
      ':' :: (natDecimal e.pr_number ++ '\x7d' :: rest) from rfl]
    simp only [reduceIte]
    rw [parseValue_num fuel e.pr_number '\x7d' rest (by decide)]
    simp only []
    rw [show skipWs ('\x7d' :: rest) = '\x7d' :: rest from rfl]
    simp only [reduceIte]
    rw [if_neg (by decide)]
  have h2 : parseMembers (fuel + 3)
      ('"' :: ("pr_url\":\"".data ++ (escapeString e.pr_url.data ++
        ("\",\"pr_number\":".data ++ (natDecimal e.pr_number ++ '\x7d' :: rest))))) =
      some ([("pr_url".data, Json.str e.pr_url.data),
        ("pr_number".data, Json.num false e.pr_number)], rest) := by
    rw [parseMembers.eq_def]
    simp only []
    rw [show skipWs ('"' :: ("pr_url\":\"".data ++ (escapeString e.pr_url.data ++
        ("\",\"pr_number\":".data ++ (natDecimal e.pr_number ++ '\x7d' :: rest))))) =
      '"' :: ("pr_url\":\"".data ++ (escapeString e.pr_url.data ++
        ("\",\"pr_number\":".data ++ (natDecimal e.pr_number ++ '\x7d' :: rest)))) from rfl]
    simp only [reduceIte]
    rw [show "pr_url\":\"".data ++ (escapeString e.pr_url.data ++
        ("\",\"pr_number\":".data ++ (natDecimal e.pr_number ++ '\x7d' :: rest))) =
      escapeString "pr_url".data ++ ('"' :: (':' :: '"' :: (escapeString e.pr_url.data ++
        ("\",\"pr_number\":".data ++ (natDecimal e.pr_number ++ '\x7d' :: rest))))) from rfl]
    rw [parseStringBody_escapeString]
    simp only []
    rw [show skipWs (':' :: '"' :: (escapeString e.pr_url.data ++
        ("\",\"pr_number\":".data ++ (natDecimal e.pr_number ++ '\x7d' :: rest)))) =
      ':' :: '"' :: (escapeString e.pr_url.data ++
        ("\",\"pr_number\":".data ++ (natDecimal e.pr_number ++ '\x7d' :: rest))) from rfl]
    simp only [reduceIte]
    rw [show escapeString e.pr_url.data ++
        ("\",\"pr_number\":".data ++ (natDecimal e.pr_number ++ '\x7d' :: rest)) =
      escapeString e.pr_url.data ++ ('"' :: (',' :: ('"' ::
        ("pr_number\":".data ++ (natDecimal e.pr_number ++ '\x7d' :: rest))))) from rfl]
    rw [parseValue_str (fuel + 1)]
    simp only []
    rw [show skipWs (',' :: ('"' ::
        ("pr_number\":".data ++ (natDecimal e.pr_number ++ '\x7d' :: rest)))) =
      ',' :: ('"' :: ("pr_number\":".data ++
        (natDecimal e.pr_number ++ '\x7d' :: rest))) from rfl]
    simp only [reduceIte]
    rw [h3]
    rfl
  rw [parseMembers.eq_def]
  simp only []
  rw [show skipWs ('"' :: ("bookmark_name\":\"".data ++ (escapeString e.bookmark_name.data ++
      ("\",\"pr_url\":\"".data ++ (escapeString e.pr_url.data ++
        ("\",\"pr_number\":".data ++ (natDecimal e.pr_number ++ '\x7d' :: rest))))))) =
    '"' :: ("bookmark_name\":\"".data ++ (escapeString e.bookmark_name.data ++
      ("\",\"pr_url\":\"".data ++ (escapeString e.pr_url.data ++
        ("\",\"pr_number\":".data ++ (natDecimal e.pr_number ++ '\x7d' :: rest)))))) from rfl]
  simp only [reduceIte]
  rw [show "bookmark_name\":\"".data ++ (escapeString e.bookmark_name.data ++
      ("\",\"pr_url\":\"".data ++ (escapeString e.pr_url.data ++
        ("\",\"pr_number\":".data ++ (natDecimal e.pr_number ++ '\x7d' :: rest))))) =
    escapeString "bookmark_name".data ++ ('"' :: (':' :: '"' ::
      (escapeString e.bookmark_name.data ++
        ("\",\"pr_url\":\"".data ++ (escapeString e.pr_url.data ++
          ("\",\"pr_number\":".data ++
            (natDecimal e.pr_number ++ '\x7d' :: rest))))))) from rfl]
  rw [parseStringBody_escapeString]
  simp only []
  rw [show skipWs (':' :: '"' :: (escapeString e.bookmark_name.data ++
      ("\",\"pr_url\":\"".data ++ (escapeString e.pr_url.data ++
        ("\",\"pr_number\":".data ++ (natDecimal e.pr_number ++ '\x7d' :: rest)))))) =
    ':' :: '"' :: (escapeString e.bookmark_name.data ++
      ("\",\"pr_url\":\"".data ++ (escapeString e.pr_url.data ++
        ("\",\"pr_number\":".data ++
          (natDecimal e.pr_number ++ '\x7d' :: rest))))) from rfl]
  simp only [reduceIte]
  rw [show escapeString e.bookmark_name.data ++
      ("\",\"pr_url\":\"".data ++ (escapeString e.pr_url.data ++
        ("\",\"pr_number\":".data ++ (natDecimal e.pr_number ++ '\x7d' :: rest)))) =
    escapeString e.bookmark_name.data ++ ('"' :: (',' :: ('"' ::
      ("pr_url\":\"".data ++ (escapeString e.pr_url.data ++
        ("\",\"pr_number\":".data ++
          (natDecimal e.pr_number ++ '\x7d' :: rest))))))) from rfl]
  rw [parseValue_str (fuel + 2)]
  simp only []
  rw [show skipWs (',' :: ('"' :: ("pr_url\":\"".data ++ (escapeString e.pr_url.data ++
      ("\",\"pr_number\":".data ++ (natDecimal e.pr_number ++ '\x7d' :: rest)))))) =
    ',' :: ('"' :: ("pr_url\":\"".data ++ (escapeString e.pr_url.data ++
      ("\",\"pr_number\":".data ++
        (natDecimal e.pr_number ++ '\x7d' :: rest))))) from rfl]
  simp only [reduceIte]
  rw [h2]
  rfl

/-- Helper: `parseValue` on one serialized `StackEntry` object. -/
theorem parseValue_entry (fuel : Nat) (e : StackEntry) (rest : List Char) :
    parseValue (fuel + 5) (jsonOfEntry e ++ rest) = some (entryJsonVal e, rest) := by
  have hshape : jsonOfEntry e ++ rest =
      '\x7b' :: ('"' :: ("bookmark_name\":\"".data ++ (escapeString e.bookmark_name.data ++
        ("\",\"pr_url\":\"".data ++ (escapeString e.pr_url.data ++
          ("\",\"pr_number\":".data ++
            (natDecimal e.pr_number ++ '\x7d' :: rest))))))) := by
    simp only [jsonOfEntry, List.cons_append, List.append_assoc, List.singleton_append]
    rfl
  rw [hshape, parseValue.eq_def]
  simp only []
  rw [skipWs_cons '\x7b' _ (by decide)]
  simp only [reduceIte]
  rw [skipWs_cons '"' _ (by decide)]
  simp only [reduceIte]
  rw [parseMembers_entry]
  rfl

/-- Helper: `parseElems` on a nonempty serialized `StackEntry` list. -/
theorem parseElems_entries : ∀ (es : List StackEntry) (e : StackEntry) (fuel : Nat)
    (rest : List Char),
    parseElems (6 * es.length + fuel + 6)
      (List.intercalate [','] ((e :: es).map jsonOfEntry) ++ (']' :: rest)) =
      some ((e :: es).map entryJsonVal, rest) := by
  intro es
  induction es with
  | nil =>
    intro e fuel rest
    have hic : List.intercalate [','] ([e].map jsonOfEntry) = jsonOfEntry e := by
      simp [List.intercalate]
    rw [hic, parseElems.eq_def]
    simp only []
    rw [parseValue_entry (6 * List.length ([] : List StackEntry) + fuel)]
    simp only []
    rw [skipWs_cons ']' _ (by decide)]
    simp only [reduceIte]
    rw [if_neg (by decide)]
    rfl
  | cons e2 es2 ih =>
    intro e fuel rest
    have hic : List.intercalate [','] ((e :: e2 :: es2).map jsonOfEntry) =
        jsonOfEntry e ++ ',' :: List.intercalate [','] ((e2 :: es2).map jsonOfEntry) := by
      simp [List.intercalate, List.intersperse]
    rw [hic, List.append_assoc, List.cons_append]
    rw [parseElems.eq_def]
    simp only []
    rw [parseValue_entry (6 * List.length (e2 :: es2) + fuel)]
    simp only []
    rw [skipWs_cons ',' _ (by decide)]
    simp only [reduceIte]
    rw [show 6 * List.length (e2 :: es2) + fuel + 5 =
      6 * List.length es2 + (fuel + 5) + 6 from by simp [List.length_cons]; ring]
    rw [ih e2 (fuel + 5) rest]
    rfl

/-- Helper: `parseMembers` on the trailing `"stack":[...]` member of a
serialized `StackCommentData`. -/
theorem parseMembers_stackTail (fuel : Nat) (d : StackCommentData) (rest : List Char) :
    parseMembers (6 * d.stack.length + fuel + 3)
      ('"' :: ("stack\":[".data ++
        (List.intercalate [','] (d.stack.map jsonOfEntry) ++ (']' :: ('\x7d' :: rest))))) =
      some ([("stack".data, Json.arr (d.stack.map entryJsonVal))], rest) := by
  have hval : parseValue (6 * d.stack.length + fuel + 2)
      ('[' :: (List.intercalate [','] (d.stack.map jsonOfEntry) ++ (']' :: ('\x7d' :: rest)))) =
      some (Json.arr (d.stack.map entryJsonVal), '\x7d' :: rest) := by
    cases hs : d.stack with
    | nil =>
      rw [parseValue.eq_def]
      simp only []
      rw [skipWs_cons '[' _ (by decide)]
      simp only [reduceIte, List.map_nil]
      rw [show List.intercalate [','] ([] : List (List Char)) ++
        (']' :: ('\x7d' :: rest)) = ']' :: ('\x7d' :: rest) from by
          simp [List.intercalate]]
      rw [skipWs_cons ']' _ (by decide)]
      simp only [reduceIte]
      rw [if_neg (by decide)]
    | cons e es =>
      rw [parseValue.eq_def]
      simp only []
      rw [skipWs_cons '[' _ (by decide)]
      simp only [reduceIte, List.map_cons]
      have hh : List.intercalate [','] (jsonOfEntry e :: es.map jsonOfEntry) ++
          (']' :: ('\x7d' :: rest)) =
          '\x7b' :: (List.intercalate [','] (jsonOfEntry e :: es.map jsonOfEntry) ++
            (']' :: ('\x7d' :: rest))).tail := by
        cases hes : es.map jsonOfEntry with
        | nil =>
          simp only [List.intercalate, List.intersperse, List.flatten, jsonOfEntry,
            List.cons_append, List.append_assoc, List.append_nil, List.tail]
        | cons l ls =>
          simp only [List.intercalate, List.intersperse, List.flatten, jsonOfEntry,
            List.cons_append, List.append_assoc, List.tail]
      rw [hh]
      rw [skipWs_cons '\x7b' _ (by decide)]
      simp only [reduceIte]
      rw [← hh]
      rw [show 6 * List.length (e :: es) + fuel + 1 =
        6 * List.length es + (fuel + 1) + 6 from by simp [List.length_cons]; ring]
      rw [show (jsonOfEntry e :: es.map jsonOfEntry) = (e :: es).map jsonOfEntry from rfl]
      rw [parseElems_entries es e (fuel + 1) ('\x7d' :: rest)]
      rfl
  rw [parseMembers.eq_def]
  simp only []
  rw [skipWs_cons '"' _ (by decide)]
  simp only [reduceIte]
  rw [show "stack\":[".data ++
      (List.intercalate [','] (d.stack.map jsonOfEntry) ++ (']' :: ('\x7d' :: rest))) =
    escapeString "stack".data ++ ('"' :: (':' :: ('[' ::
      (List.intercalate [','] (d.stack.map jsonOfEntry) ++
        (']' :: ('\x7d' :: rest)))))) from rfl]
  rw [parseStringBody_escapeString]
  simp only []
  rw [skipWs_cons ':' _ (by decide)]
  simp only [reduceIte]
  rw [hval]
  simp only []
  rw [skipWs_cons '\x7d' _ (by decide)]
  simp only [reduceIte]
  rw [if_neg (by decide)]

/-- Helper: `parseMembers` on the serialized members of a
`StackCommentData`. -/
theorem parseMembers_data (fuel : Nat) (d : StackCommentData) (rest : List Char) :
    parseMembers (6 * d.stack.length + fuel + 4)
      ('"' :: ("version\":".data ++ (natDecimal d.version ++ (",\"stack\":[".data ++
        (List.intercalate [','] (d.stack.map jsonOfEntry) ++ (']' :: ('\x7d' :: rest))))))) =
      some ([("version".data, Json.num false d.version),
        ("stack".data, Json.arr (d.stack.map entryJsonVal))], rest) := by
  rw [parseMembers.eq_def]
  simp only []
  rw [skipWs_cons '"' _ (by decide)]
  simp only [reduceIte]
  rw [show "version\":".data ++ (natDecimal d.version ++ (",\"stack\":[".data ++
      (List.intercalate [','] (d.stack.map jsonOfEntry) ++ (']' :: ('\x7d' :: rest))))) =
    escapeString "version".data ++ ('"' :: (':' ::
      (natDecimal d.version ++ (",\"stack\":[".data ++
        (List.intercalate [','] (d.stack.map jsonOfEntry) ++
          (']' :: ('\x7d' :: rest))))))) from rfl]
  rw [parseStringBody_escapeString]
  simp only []
  rw [skipWs_cons ':' _ (by decide)]
  simp only [reduceIte]
  rw [show natDecimal d.version ++ (",\"stack\":[".data ++
      (List.intercalate [','] (d.stack.map jsonOfEntry) ++ (']' :: ('\x7d' :: rest)))) =
    natDecimal d.version ++ (',' :: ('"' :: ("stack\":[".data ++
      (List.intercalate [','] (d.stack.map jsonOfEntry) ++
        (']' :: ('\x7d' :: rest)))))) from rfl]
  rw [parseValue_num (6 * d.stack.length + fuel + 2) d.version ',' _ (by decide)]
  simp only []
  rw [skipWs_cons ',' _ (by decide)]
  simp only [reduceIte]
  rw [parseMembers_stackTail fuel d rest]
  rfl

/-- Helper: a serialized entry is at least six characters long. -/
theorem jsonOfEntry_len (e : StackEntry) : 6 ≤ (jsonOfEntry e).length := by
  simp only [jsonOfEntry, List.length_cons, List.length_append]
  omega

/-- Helper: the serialized stack list is at least six characters per
entry. -/
theorem intercalate_entries_len : ∀ (st : List StackEntry),
    6 * st.length ≤ (List.intercalate [','] (st.map jsonOfEntry)).length
  | [] => by simp [List.intercalate]
  | [e] => by
    simp only [List.map_cons, List.map_nil]
    rw [show List.intercalate [','] [jsonOfEntry e] = jsonOfEntry e from by
      simp [List.intercalate]]
    have := jsonOfEntry_len e
    simp only [List.length_cons, List.length_nil]
    omega
  | e :: e2 :: es => by
    have h1 := jsonOfEntry_len e
    have h2 := intercalate_entries_len (e2 :: es)
    rw [show List.intercalate [','] ((e :: e2 :: es).map jsonOfEntry) =
      jsonOfEntry e ++ ',' :: List.intercalate [','] ((e2 :: es).map jsonOfEntry) from by
        simp [List.intercalate, List.intersperse]]
    simp only [List.length_append, List.length_cons] at h2 ⊢
    omega

/-- Helper: the serialized document is long enough to fuel the parser. -/
theorem jsonOfData_len (d : StackCommentData) :
    6 * d.stack.length + 4 ≤ (jsonOfData d).length := by
  have h := intercalate_entries_len d.stack
  simp only [jsonOfData, List.length_cons, List.length_append]
  omega

/-- Helper: `parseJsonDoc` inverts the `StackCommentData` serializer. -/
theorem parseJsonDoc_data (d : StackCommentData) :
    parseJsonDoc (jsonOfData d) = some (dataJsonVal d) := by
  have hL := jsonOfData_len d
  have hshape : jsonOfData d =
      '\x7b' :: ('"' :: ("version\":".data ++ (natDecimal d.version ++
        (",\"stack\":[".data ++ (List.intercalate [','] (d.stack.map jsonOfEntry) ++
          (']' :: ('\x7d' :: ([] : List Char)))))))) := by
    simp only [jsonOfData, List.cons_append, List.append_assoc]
  have hpv : parseValue ((jsonOfData d).length + 1) (jsonOfData d) =
      some (dataJsonVal d, ([] : List Char)) := by
    set L := (jsonOfData d).length with hLdef
    rw [hshape, parseValue.eq_def]
    simp only []
    rw [skipWs_cons '\x7b' _ (by decide)]
    simp only [reduceIte]
    rw [skipWs_cons '"' _ (by decide)]
    simp only [reduceIte]
    rw [if_neg (show ('"' : Char) ≠ '\x7d' from by decide)]
    rw [show L = 6 * d.stack.length + (L - (6 * d.stack.length + 4)) + 4 from by omega]
    rw [parseMembers_data (L - (6 * d.stack.length + 4)) d []]
    rfl
  rw [parseJsonDoc, hpv]
  rfl

/-- Helper: deserializing a serialized entry value gives the entry back. -/
theorem entryOfJson_entryJsonVal (e : StackEntry) (h : e.pr_number < 2 ^ 64) :
    entryOfJson (entryJsonVal e) = some e := by
  show (if e.pr_number < 2 ^ 64 then
      some ⟨String.mk e.bookmark_name.data, String.mk e.pr_url.data, e.pr_number⟩
    else none) = some e
  rw [if_pos h]

/-- Helper: deserializing a serialized entry list gives the list back. -/
theorem mapM_entries : ∀ (st : List StackEntry), (∀ e ∈ st, e.pr_number < 2 ^ 64) →
    (st.map entryJsonVal).mapM entryOfJson = some st
  | [], _ => rfl
  | e :: st, h => by
    rw [List.map_cons, List.mapM_cons, entryOfJson_entryJsonVal e (h e (by simp)),
      mapM_entries st (fun x hx => h x (by simp [hx]))]
    rfl

/-- Helper: deserializing a serialized `StackCommentData` value gives the
data back. -/
theorem dataOfJson_dataJsonVal (d : StackCommentData) (hv : d.version < 2 ^ 32)
    (hp : ∀ e ∈ d.stack, e.pr_number < 2 ^ 64) :
    dataOfJson (dataJsonVal d) = some d := by
  show (if d.version < 2 ^ 32 then
      ((d.stack.map entryJsonVal).mapM entryOfJson).map
        (fun st => ⟨d.version, st⟩)
    else none) = some d
  rw [if_pos hv, mapM_entries d.stack hp]
  rfl

/-- Helper: head line of `rustLinesAux` across the first newline. -/
theorem rustLinesAux_head : ∀ (A acc B : List Char), '\n' ∉ A →
    (rustLinesAux acc (A ++ '\n' :: B)).head? = some (stripTrailingCR (acc ++ A))
  | [], acc, B, _ => by
    rw [List.nil_append, rustLinesAux.eq_def]
    simp only [reduceIte]
    simp
  | c :: A, acc, B, h => by
    have hc : c ≠ '\n' := fun hcc => h (hcc ▸ List.mem_cons_self _ _)
    have hstep : rustLinesAux acc ((c :: A) ++ '\n' :: B) =
        rustLinesAux (acc ++ [c]) (A ++ '\n' :: B) := by
      rw [List.cons_append, rustLinesAux.eq_def]
      simp only [hc, reduceIte]
    rw [hstep, rustLinesAux_head A (acc ++ [c]) B (fun hx => h (List.mem_cons_of_mem _ hx)),
      List.append_assoc]
    rfl

/-- Helper: the first line of text that opens with a newline-free segment. -/
theorem rustLines_head (A B : List Char) (hA : '\n' ∉ A)
    (hcr : A.getLast? ≠ some '\r') :
    (rustLinesChars (A ++ '\n' :: B)).head? = some A := by
  have hcons : rustLinesChars (A ++ '\n' :: B) = rustLinesAux [] (A ++ '\n' :: B) := by
    cases A with
    | nil => rfl
    | cons c A2 => rfl
  rw [hcons, rustLinesAux_head A [] B hA]
  simp only [List.nil_append, stripTrailingCR]
  rw [if_neg (by intro hx; exact hcr hx)]

/-- Helper: a pattern occurs at index zero of a list it prefixes. -/
theorem findSubstrIdx_self (p : Char) (ps rest : List Char) :
    findSubstrIdx (p :: ps) ((p :: ps) ++ rest) = some 0 := by
  rw [List.cons_append, findSubstrIdx.eq_def]
  simp only []
  rw [if_pos (by
    rw [List.isPrefixOf_iff_prefix]
    exact (List.cons_append p ps rest) ▸ List.prefix_append _ _)]

/-- Helper: the first space-headed occurrence after a space-free segment. -/
theorem findSubstrIdx_after : ∀ (xs ps : List Char), (∀ c ∈ xs, c ≠ ' ') →
    findSubstrIdx (' ' :: ps) (xs ++ ' ' :: ps) = some xs.length
  | [], ps, _ => by
    rw [List.nil_append, findSubstrIdx.eq_def]
    simp only []
    rw [if_pos (by rw [List.isPrefixOf_iff_prefix])]
    rfl
  | x :: xs, ps, h => by
    have hx : x ≠ ' ' := h x (List.mem_cons_self _ _)
    rw [List.cons_append, findSubstrIdx.eq_def]
    simp only []
    rw [if_neg (by
      intro hpre
      rw [List.isPrefixOf_iff_prefix] at hpre
      obtain ⟨t, ht⟩ := hpre
      rw [List.cons_append] at ht
      exact hx (List.head_eq_of_cons_eq ht).symm)]
    rw [findSubstrIdx_after xs ps (fun c hc => h c (List.mem_cons_of_mem _ hc))]
    rfl

/-- Helper: the last character of anything ending in the marker postfix. -/
theorem getLast_markerEnd (l : List Char) :
    (l ++ commentDataMarkerEnd).getLast? = some '>' := by
  rw [show commentDataMarkerEnd = " ---".data ++ ['>'] from rfl, ← List.append_assoc,
    List.getLast?_concat]

/-- C2: for every `StackCommentData` whose fields fit the source's integer
types (`u32` version, `u64` PR numbers) and every index into its stack,
parsing the formatted stack comment returns exactly the original data:
`parse_stack_comment (format_stack_comment data i) = some data`. -/
theorem stack_comment_roundtrip (d : StackCommentData) (i : Nat)
    (hv : d.version < 2 ^ 32)
    (hp : ∀ e ∈ d.stack, e.pr_number < 2 ^ 64)
    (hi : i < d.stack.length) :
    parse_stack_comment (format_stack_comment d i) = some d := by
  set enc := base64Encode (utf8Encode (jsonOfData d)) with henc
  have hbody : (format_stack_comment d i).data =
      (commentDataMarkerStart ++ (enc ++ commentDataMarkerEnd)) ++ '\n' ::
        ("This PR is part of a stack of ".data ++
          ((String.mk (natDecimal d.stack.length)).data ++
            (" bookmark".data ++
              ((if d.stack.length = 1 then "" else "s") : String).data ++
                (":\n\n1. `trunk()`\n".data ++
                  ((d.stack.enum.map (fun p =>
                    if p.1 = i then
                      ("1. **" ++ p.2.pr_url ++ " " ++ stackCommentThisPr ++ "**\n").data
                    else
                      ("1. " ++ p.2.pr_url ++ "\n").data)).flatten ++
                    ("\n---\n" ++ stackCommentFooter).data))))) := by
    simp only [format_stack_comment, String.data_append, List.append_assoc,
      List.cons_append]
  have hA_nonl : '\n' ∉ commentDataMarkerStart ++ (enc ++ commentDataMarkerEnd) := by
    intro hmem
    rcases List.mem_append.mp hmem with hm | hm
    · revert hm; decide
    · rcases List.mem_append.mp hm with hm2 | hm2
      · exact (base64Encode_chars _ _ hm2).1 (by decide)
      · revert hm2; decide
  have hA_last : (commentDataMarkerStart ++ (enc ++ commentDataMarkerEnd)).getLast? =
      some '>' := by
    rw [← List.append_assoc]; exact getLast_markerEnd _
  have h1 : (rustLinesChars (format_stack_comment d i).data).head? =
      some (commentDataMarkerStart ++ (enc ++ commentDataMarkerEnd)) := by
    rw [hbody]
    exact rustLines_head _ _ hA_nonl (by rw [hA_last]; decide)
  have h2 : findSubstrIdx commentDataMarkerStart
      (commentDataMarkerStart ++ (enc ++ commentDataMarkerEnd)) = some 0 := by
    rw [show commentDataMarkerStart = '<' :: "!--- JACK_STACK: ".data from rfl]
    exact findSubstrIdx_self _ _ _
  have h3 : (commentDataMarkerStart ++ (enc ++ commentDataMarkerEnd)).drop
      (0 + commentDataMarkerStart.length) = enc ++ commentDataMarkerEnd := by
    rw [Nat.zero_add]; exact List.drop_left _ _
  have h4 : findSubstrIdx commentDataMarkerEnd (enc ++ commentDataMarkerEnd) =
      some enc.length := by
    rw [show commentDataMarkerEnd = ' ' :: "--->".data from rfl]
    exact findSubstrIdx_after enc "--->".data
      (fun c hc heq => (base64Encode_chars _ _ hc).2 (by rw [heq]; rfl))
  have h5 : (enc ++ commentDataMarkerEnd).take enc.length = enc := List.take_left _ _
  have h6 : base64Decode enc = some (utf8Encode (jsonOfData d)) :=
    base64_roundtrip _ (utf8Encode_lt _)
  have h7 : utf8Decode (utf8Encode (jsonOfData d)) = some (jsonOfData d) :=
    utf8_roundtrip _
  have h8 : parseJsonDoc (jsonOfData d) = some (dataJsonVal d) := parseJsonDoc_data d
  have h9 : dataOfJson (dataJsonVal d) = some d := dataOfJson_dataJsonVal d hv hp
  simp [parse_stack_comment, h1, h2, h3, h4, h5, h6, h7, h8, h9]

/-- C2 witness: the round trip instantiated on a one-entry stack. -/
theorem stack_comment_roundtrip_witness :
    (1 : Nat) < 2 ^ 32 ∧
    (∀ e ∈ (⟨1, [⟨"feat", "https://x/1", 7⟩]⟩ : StackCommentData).stack,
      e.pr_number < 2 ^ 64) ∧
    0 < (⟨1, [⟨"feat", "https://x/1", 7⟩]⟩ : StackCommentData).stack.length ∧
    parse_stack_comment (format_stack_comment
      (⟨1, [⟨"feat", "https://x/1", 7⟩]⟩ : StackCommentData) 0) =
      some (⟨1, [⟨"feat", "https://x/1", 7⟩]⟩ : StackCommentData) :=
  ⟨by decide, by decide, by decide,
    stack_comment_roundtrip _ 0 (by decide) (by decide) (by decide)⟩

/-- Helper: lookup after insert at the same key. -/
theorem mapLookup_insert_self {α : Type} (m : List (String × α)) (k : String) (v : α) :
    mapLookup (mapInsert m k v) k = some v := by
  simp [mapInsert, mapLookup, List.find?_cons]

/-- Helper: `find?` by one key ignores entries filtered at another key. -/
theorem find_filter_other {α : Type} (k k2 : String) (hne : k2 ≠ k) :
    ∀ (m : List (String × α)),
      (m.filter (fun p => p.1 ≠ k)).find? (fun p => p.1 = k2) =
        m.find? (fun p => p.1 = k2)
  | [] => rfl
  | a :: m => by
    by_cases ha : a.1 = k
    · rw [List.filter_cons_of_neg (by simp [ha]), find_filter_other k k2 hne m,
        List.find?_cons_of_neg _ (by simp [ha, Ne.symm hne])]
    · rw [List.filter_cons_of_pos (by simp [ha])]
      by_cases ha2 : a.1 = k2
      · rw [List.find?_cons_of_pos _ (by simp [ha2]),
          List.find?_cons_of_pos _ (by simp [ha2])]
      · rw [List.find?_cons_of_neg _ (by simp [ha2]),
          List.find?_cons_of_neg _ (by simp [ha2]), find_filter_other k k2 hne m]

/-- Helper: lookup after insert at a different key. -/
theorem mapLookup_insert_other {α : Type} (m : List (String × α)) (k k2 : String)
    (v : α) (hne : k2 ≠ k) :
    mapLookup (mapInsert m k v) k2 = mapLookup m k2 := by
  simp only [mapInsert, mapLookup]
  rw [List.find?_cons_of_neg _ (by simp [Ne.symm hne]), find_filter_other k k2 hne m]

/-- Helper: a lookup misses exactly when the key is absent. -/
theorem mapLookup_eq_none_iff {α : Type} (m : List (String × α)) (k : String) :
    mapLookup m k = none ↔ k ∉ m.map (·.1) := by
  simp only [mapLookup, Option.map_eq_none', List.find?_eq_none, List.mem_map,
    decide_eq_true_eq]
  constructor
  · rintro h ⟨p, hp, rfl⟩
    exact h p hp rfl
  · intro h p hp hk
    exact h ⟨p, hp, hk⟩

/-- Helper: keys after an insert. -/
theorem mapInsert_keys {α : Type} (m : List (String × α)) (k a : String) (v : α) :
    a ∈ (mapInsert m k v).map (·.1) ↔ a = k ∨ a ∈ m.map (·.1) := by
  simp only [mapInsert, List.map_cons, List.mem_cons, List.mem_map, List.mem_filter,
    decide_eq_true_eq]
  constructor
  · rintro (rfl | ⟨p, ⟨hp, _⟩, rfl⟩)
    · exact Or.inl rfl
    · exact Or.inr ⟨p, hp, rfl⟩
  · rintro (rfl | ⟨p, hp, rfl⟩)
    · exact Or.inl rfl
    · by_cases hk : p.1 = k
      · exact Or.inl hk
      · exact Or.inr ⟨p, ⟨hp, by simpa using hk⟩, rfl⟩

/-- Helper: entries after an insert. -/
theorem mapInsert_entries {α : Type} (m : List (String × α)) (k k2 : String)
    (v v2 : α) (h : (k2, v2) ∈ mapInsert m k v) :
    (k2, v2) ∈ m ∨ (k2 = k ∧ v2 = v) := by
  simp only [mapInsert, List.mem_cons, Prod.mk.injEq, List.mem_filter] at h
  rcases h with ⟨rfl, rfl⟩ | ⟨hm, _⟩
  · exact Or.inr ⟨rfl, rfl⟩
  · exact Or.inl hm

/-- Helper: lookup through a key-wise fold of inserts, missing key. -/
theorem foldInsert_lookup_none {α β : Type} (f : α → String) (g : α → β) :
    ∀ (xs : List α) (m0 : List (String × β)) (k : String), k ∉ xs.map f →
      mapLookup (xs.foldl (fun m x => mapInsert m (f x) (g x)) m0) k = mapLookup m0 k
  | [], _, _, _ => rfl
  | x :: xs, m0, k, h => by
    simp only [List.map_cons, List.mem_cons] at h
    push_neg at h
    rw [List.foldl_cons, foldInsert_lookup_none f g xs _ k h.2,
      mapLookup_insert_other _ _ _ _ h.1]

/-- Helper: lookup through a key-wise fold of inserts, present key. -/
theorem foldInsert_lookup_mem {α β : Type} (f : α → String) (g : α → β) :
    ∀ (xs : List α) (m0 : List (String × β)) (k : String), k ∈ xs.map f →
      mapLookup (xs.foldl (fun m x => mapInsert m (f x) (g x)) m0) k ≠ none
  | [], _, _, h => by simp at h
  | x :: xs, m0, k, h => by
    rw [List.foldl_cons]
    by_cases hk : k ∈ xs.map f
    · exact foldInsert_lookup_mem f g xs _ k hk
    · simp only [List.map_cons, List.mem_cons] at h
      rcases h with rfl | h
      · rw [foldInsert_lookup_none f g xs _ (f x) hk, mapLookup_insert_self]
        simp
      · exact absurd h hk

/-- Helper: keys through a key-wise fold of inserts. -/
theorem foldInsert_keys {α β : Type} (f : α → String) (g : α → β) :
    ∀ (xs : List α) (m0 : List (String × β)) (a : String),
      a ∈ (xs.foldl (fun m x => mapInsert m (f x) (g x)) m0).map (·.1) ↔
        a ∈ m0.map (·.1) ∨ a ∈ xs.map f
  | [], m0, a => by simp
  | x :: xs, m0, a => by
    rw [List.foldl_cons, foldInsert_keys f g xs _ a, mapInsert_keys]
    simp only [List.map_cons, List.mem_cons]
    tauto

/-- Helper: entries through a key-wise fold of inserts. -/
theorem foldInsert_entries {α β : Type} (f : α → String) (g : α → β) :
    ∀ (xs : List α) (m0 : List (String × β)) (k : String) (v : β),
      (k, v) ∈ xs.foldl (fun m x => mapInsert m (f x) (g x)) m0 →
      (k, v) ∈ m0 ∨ ∃ x ∈ xs, k = f x ∧ v = g x
  | [], _, _, _, h => Or.inl h
  | x :: xs, m0, k, v, h => by
    rw [List.foldl_cons] at h
    rcases foldInsert_entries f g xs _ k v h with hm | ⟨x2, hx2, rfl, rfl⟩
    · rcases mapInsert_entries m0 (f x) k (g x) v hm with hm2 | ⟨rfl, rfl⟩
      · exact Or.inl hm2
      · exact Or.inr ⟨x, List.mem_cons_self _ _, rfl, rfl⟩
    · exact Or.inr ⟨x2, List.mem_cons_of_mem _ hx2, rfl, rfl⟩

/-- Helper: the child keys of the window edges are all segment ids but the
last. -/
theorem windowsEdges_keys : ∀ (S : List BookmarkSegment),
    (windowsEdges S).map (·.1) = (S.map (·.change_id)).dropLast
  | [] => rfl
  | [_] => rfl
  | s1 :: s2 :: rest => by
    rw [windowsEdges, List.map_cons, windowsEdges_keys (s2 :: rest)]
    simp [List.dropLast]

/-- Helper: the segments of a kept traversal, viewed as change id and
bookmark names: the accumulator followed by fresh segments whose ids form a
sublist of the log's change ids and whose names are nonempty user-bookmark
filters disjoint from the fully-collected set. -/
theorem traverseLoop_ok_views (bn : String) (fc users : Finset String) :
    ∀ (changes : List LogEntry) (segs : List BookmarkSegment)
      (cur : Option BookmarkSegment) (seen : List String) (t0 : Finset String)
      (tr : TraversalResult) (t' : Finset String),
      traverseLoop bn fc users changes segs cur seen t0 = .ok (tr, t') →
      tr.excluded = false →
      ∃ nv : List (String × List String),
        tr.segments.map segView = (segs ++ cur.toList).map segView ++ nv ∧
        (nv.map Prod.fst).Sublist (changes.map (·.change_id)) ∧
        ∀ v ∈ nv, v.2 ≠ [] ∧ (∀ n ∈ v.2, n ∉ fc) ∧
          ∃ c ∈ changes, c.change_id = v.1 ∧
            v.2 = c.local_bookmark_names.filter (fun n => n ∈ users) := by
  intro changes
  induction changes with
  | nil =>
    intro segs cur seen t0 tr t' h _
    simp only [traverseLoop, Except.ok.injEq, Prod.mk.injEq] at h
    obtain ⟨h1, _⟩ := h
    rw [← h1]
    exact ⟨[], by simp, by simp, by simp⟩
  | cons c rest ih =>
    intro segs cur seen t0 tr t' h hex
    simp only [traverseLoop] at h
    by_cases hm : c.parents.length > 1 ∨ c.change_id ∈ t0
    · rw [if_pos hm] at h
      simp only [Except.ok.injEq, Prod.mk.injEq] at h
      obtain ⟨h1, _⟩ := h
      rw [← h1] at hex
      cases hex
    · rw [if_neg hm] at h
      by_cases hub : (c.local_bookmark_names.filter (fun n => n ∈ users)).isEmpty = true
      · rw [if_pos hub] at h
        cases cur with
        | some seg =>
          obtain ⟨nv, hmap, hsub, hq⟩ := ih segs
            (some { seg with commits := seg.commits ++ [mkSegmentCommit c] })
            (seen ++ [c.change_id]) t0 tr t' h hex
          refine ⟨nv, ?_, ?_, ?_⟩
          · rw [hmap]
            simp [segView]
          · simp only [List.map_cons]
            exact hsub.trans (List.sublist_cons_self _ _)
          · intro v hv
            obtain ⟨h1, h2, c2, hc2, h3, h4⟩ := hq v hv
            exact ⟨h1, h2, c2, List.mem_cons_of_mem _ hc2, h3, h4⟩
        | none => cases h
      · rw [if_neg hub] at h
        by_cases hcol : (c.local_bookmark_names.filter (fun n => n ∈ users)).any
            (fun n => n ∈ fc) = true
        · rw [if_pos hcol] at h
          simp only [Except.ok.injEq, Prod.mk.injEq] at h
          obtain ⟨h1, _⟩ := h
          rw [← h1]
          exact ⟨[], by simp, by simp, by simp⟩
        · rw [if_neg hcol] at h
          obtain ⟨nv, hmap, hsub, hq⟩ := ih (segs ++ cur.toList)
            (some ⟨c.local_bookmark_names.filter (fun n => n ∈ users),
              c.change_id, [mkSegmentCommit c]⟩)
            (seen ++ [c.change_id]) t0 tr t' h hex
          refine ⟨(c.change_id,
            c.local_bookmark_names.filter (fun n => n ∈ users)) :: nv, ?_, ?_, ?_⟩
          · rw [hmap]
            simp [segView]
          · simp only [List.map_cons]
            exact List.Sublist.cons₂ _ hsub
          · intro v hv
            rcases List.mem_cons.mp hv with rfl | hv2
            · refine ⟨?_, ?_, c, List.mem_cons_self _ _, rfl, rfl⟩
              · intro hnil
                rw [← List.isEmpty_iff] at hnil
                exact hub hnil
              · intro n hn hfc
                have : (c.local_bookmark_names.filter (fun n => n ∈ users)).any
                    (fun n => n ∈ fc) = true := by
                  rw [List.any_eq_true]
                  exact ⟨n, hn, by simpa using hfc⟩
                exact hcol this
            · obtain ⟨h1, h2, c2, hc2, h3, h4⟩ := hq v hv2
              exact ⟨h1, h2, c2, List.mem_cons_of_mem _ hc2, h3, h4⟩

/-- Helper: the last change id of a segment list. -/
theorem getLast_map_cid : ∀ (S : List BookmarkSegment) (g : BookmarkSegment),
    S.getLast? = some g → (S.map (·.change_id)).getLast? = some g.change_id
  | [], _, h => by cases h
  | [s], g, h => by
    simp only [List.getLast?_singleton, Option.some.injEq] at h
    subst h; rfl
  | s1 :: s2 :: S, g, h => by
    rw [List.getLast?_cons_cons] at h
    rw [List.map_cons, List.map_cons, List.getLast?_cons_cons]
    exact getLast_map_cid (s2 :: S) g h

/-- Helper: membership splits into the front and the last element. -/
theorem mem_split_last : ∀ (l : List String) (g : String), l.getLast? = some g →
    ∀ x ∈ l, x ∈ l.dropLast ∨ x = g
  | [], _, h => by cases h
  | [a], g, h => by
    intro x hx
    simp only [List.getLast?_singleton, Option.some.injEq] at h
    simp only [List.mem_singleton] at hx
    subst h; subst hx
    exact Or.inr rfl
  | a :: b :: l, g, h => by
    intro x hx
    rw [List.getLast?_cons_cons] at h
    rcases List.mem_cons.mp hx with rfl | hx2
    · left
      rw [List.dropLast_cons₂]
      exact List.mem_cons_self _ _
    · rcases mem_split_last (b :: l) g h x hx2 with h3 | h3
      · left
        rw [List.dropLast_cons₂]
        exact List.mem_cons_of_mem _ h3
      · exact Or.inr h3

/-- Helper: in a duplicate-free list the last element is not in the front. -/
theorem last_not_dropLast : ∀ (l : List String) (g : String), l.Nodup →
    l.getLast? = some g → g ∉ l.dropLast
  | [], _, _, h => by cases h
  | [_], _, _, _ => by simp
  | a :: b :: l, g, hnd, h => by
    rw [List.getLast?_cons_cons] at h
    rw [List.dropLast_cons₂]
    intro hmem
    rcases List.mem_cons.mp hmem with rfl | hmem2
    · exact (List.nodup_cons.mp hnd).1 (List.mem_of_mem_getLast? h)
    · exact last_not_dropLast (b :: l) g (List.nodup_cons.mp hnd).2 h hmem2

/-- Helper: one kept traversal preserves the builder's leaf/root/segment
invariants, given fresh duplicate-free segment ids and the traversal's
per-segment facts. -/
theorem applyTraversal_inv (users : Finset String) (vcsLog : String → List LogEntry)
    (st : BuildState) (result : TraversalResult) (t' : Finset String)
    (inv1 : ∀ id, id ∈ st.stack_roots → id ∈ st.segments.map (·.1))
    (inv2 : ∀ id, id ∈ st.adjacency_list.map (·.1) → id ∈ st.segments.map (·.1))
    (inv3 : ∀ id, id ∈ st.segments.map (·.1) →
      (mapLookup st.adjacency_list id = none ↔ id ∈ st.stack_roots))
    (inv4 : ∀ id seg, (id, seg) ∈ st.segments → seg.bookmark_names ≠ [] ∧
      (∀ n ∈ seg.bookmark_names, n ∈ st.fully_collected) ∧
      ∃ c, (∃ b2, c ∈ vcsLog b2) ∧ c.change_id = id ∧
        seg.bookmark_names = c.local_bookmark_names.filter (fun n => n ∈ users))
    (hids : (result.segments.map (·.change_id)).Nodup)
    (hfresh : ∀ s ∈ result.segments, s.change_id ∉ st.segments.map (·.1))
    (hq : ∀ s ∈ result.segments, s.bookmark_names ≠ [] ∧
      ∃ c, (∃ b2, c ∈ vcsLog b2) ∧ c.change_id = s.change_id ∧
        s.bookmark_names = c.local_bookmark_names.filter (fun n => n ∈ users)) :
    (∀ id, id ∈ (applyTraversal st result t').stack_roots →
      id ∈ (applyTraversal st result t').segments.map (·.1)) ∧
    (∀ id, id ∈ (applyTraversal st result t').adjacency_list.map (·.1) →
      id ∈ (applyTraversal st result t').segments.map (·.1)) ∧
    (∀ id, id ∈ (applyTraversal st result t').segments.map (·.1) →
      (mapLookup (applyTraversal st result t').adjacency_list id = none ↔
        id ∈ (applyTraversal st result t').stack_roots)) ∧
    (∀ id seg, (id, seg) ∈ (applyTraversal st result t').segments →
      seg.bookmark_names ≠ [] ∧
      (∀ n ∈ seg.bookmark_names, n ∈ (applyTraversal st result t').fully_collected) ∧
      ∃ c, (∃ b2, c ∈ vcsLog b2) ∧ c.change_id = id ∧
        seg.bookmark_names = c.local_bookmark_names.filter (fun n => n ∈ users)) := by
  have hsegs : (applyTraversal st result t').segments =
      result.segments.foldl (fun m seg => mapInsert m seg.change_id seg) st.segments := rfl
  have hfcge : ∀ n, n ∈ st.fully_collected →
      n ∈ (applyTraversal st result t').fully_collected :=
    fun n hn => Finset.mem_union_left _ hn
  have hfcnew : ∀ s ∈ result.segments, ∀ n ∈ s.bookmark_names,
      n ∈ (applyTraversal st result t').fully_collected := by
    intro s hs n hn
    refine Finset.mem_union_right _ ?_
    rw [List.mem_toFinset]
    exact List.mem_flatMap.mpr ⟨s, hs, hn⟩
  have hkeys : ∀ a, a ∈ (applyTraversal st result t').segments.map (·.1) ↔
      a ∈ st.segments.map (·.1) ∨ a ∈ result.segments.map (·.change_id) := by
    intro a
    rw [hsegs]
    exact foldInsert_keys (fun s : BookmarkSegment => s.change_id) (fun s : BookmarkSegment => s) result.segments st.segments a
  have hentry : ∀ k v, (k, v) ∈ (applyTraversal st result t').segments →
      (k, v) ∈ st.segments ∨ ∃ s ∈ result.segments, k = s.change_id ∧ v = s := by
    intro k v h
    rw [hsegs] at h
    exact foldInsert_entries (fun s : BookmarkSegment => s.change_id) (fun s : BookmarkSegment => s)
      result.segments st.segments k v h
  have hfresh2 : ∀ id, id ∈ st.segments.map (·.1) →
      id ∉ result.segments.map (·.change_id) := by
    intro id hold hnewm
    obtain ⟨s, hs, rfl⟩ := List.mem_map.mp hnewm
    exact hfresh s hs hold
  have newInv4 : ∀ id seg, (id, seg) ∈ (applyTraversal st result t').segments →
      seg.bookmark_names ≠ [] ∧
      (∀ n ∈ seg.bookmark_names, n ∈ (applyTraversal st result t').fully_collected) ∧
      ∃ c, (∃ b2, c ∈ vcsLog b2) ∧ c.change_id = id ∧
        seg.bookmark_names = c.local_bookmark_names.filter (fun n => n ∈ users) := by
    intro id seg h
    rcases hentry id seg h with hold | ⟨s, hs, hkeq, hveq⟩
    · obtain ⟨h1, h2, h3⟩ := inv4 id seg hold
      exact ⟨h1, fun n hn => hfcge n (h2 n hn), h3⟩
    · obtain ⟨h1, c, hc1, hc2, hc3⟩ := hq s hs
      subst hkeq
      rw [hveq]
      exact ⟨h1, fun n hn => hfcnew s hs n hn, c, hc1, hc2, hc3⟩
  have hadj1none : ∀ k, k ∉ result.segments.map (·.change_id) →
      mapLookup ((windowsEdges result.segments).foldl
        (fun m e => mapInsert m e.1 e.2) st.adjacency_list) k =
        mapLookup st.adjacency_list k := by
    intro k hk
    refine foldInsert_lookup_none (fun e : String × String => e.1) (fun e : String × String => e.2) _ _ k ?_
    rw [windowsEdges_keys]
    intro hmem
    exact hk ((List.dropLast_sublist _).subset hmem)
  have hadj1mem : ∀ k, k ∈ (result.segments.map (·.change_id)).dropLast →
      mapLookup ((windowsEdges result.segments).foldl
        (fun m e => mapInsert m e.1 e.2) st.adjacency_list) k ≠ none := by
    intro k hk
    refine foldInsert_lookup_mem (fun e : String × String => e.1) (fun e : String × String => e.2) _ _ k ?_
    rw [windowsEdges_keys]
    exact hk
  have hadj1keys : ∀ a, a ∈ ((windowsEdges result.segments).foldl
      (fun m e => mapInsert m e.1 e.2) st.adjacency_list).map (·.1) →
      a ∈ st.adjacency_list.map (·.1) ∨ a ∈ result.segments.map (·.change_id) := by
    intro a ha
    rcases (foldInsert_keys (fun e : String × String => e.1) (fun e => e.2) _ _ a).mp ha
      with h | h
    · exact Or.inl h
    · rw [windowsEdges_keys] at h
      exact Or.inr ((List.dropLast_sublist _).subset h)
  cases hseen : result.already_seen_change_id with
  | some seen_id =>
    cases hlast : result.segments.getLast? with
    | some last_seg =>
      have hadj : (applyTraversal st result t').adjacency_list =
          mapInsert ((windowsEdges result.segments).foldl
            (fun m e => mapInsert m e.1 e.2) st.adjacency_list)
            last_seg.change_id seen_id := by
        simp only [applyTraversal, hseen, hlast]
      have hroots : (applyTraversal st result t').stack_roots = st.stack_roots := by
        simp only [applyTraversal, hseen, hlast]
      have hlastmem : last_seg.change_id ∈ result.segments.map (·.change_id) :=
        List.mem_map.mpr ⟨last_seg, List.mem_of_mem_getLast? hlast, rfl⟩
      have hlastids : (result.segments.map (·.change_id)).getLast? =
          some last_seg.change_id := getLast_map_cid _ _ hlast
      refine ⟨?_, ?_, ?_, newInv4⟩
      · intro id hid
        rw [hroots] at hid
        exact (hkeys id).mpr (Or.inl (inv1 id hid))
      · intro id hid
        rw [hadj] at hid
        rcases (mapInsert_keys _ _ _ _).mp hid with rfl | hid2
        · exact (hkeys _).mpr (Or.inr hlastmem)
        · rcases hadj1keys id hid2 with h | h
          · exact (hkeys id).mpr (Or.inl (inv2 id h))
          · exact (hkeys id).mpr (Or.inr h)
      · intro id hid
        rw [hadj, hroots]
        rcases (hkeys id).mp hid with hold | hnewm
        · have hne : id ≠ last_seg.change_id := by
            intro heq
            exact hfresh2 id hold (heq ▸ hlastmem)
          rw [mapLookup_insert_other _ _ _ _ hne, hadj1none id (hfresh2 id hold)]
          exact inv3 id hold
        · rcases mem_split_last _ _ hlastids id hnewm with hdrop | rfl
          · have hne : id ≠ last_seg.change_id := by
              intro heq
              exact last_not_dropLast _ _ hids hlastids (heq ▸ hdrop)
            rw [mapLookup_insert_other _ _ _ _ hne]
            constructor
            · intro hnone
              exact absurd hnone (hadj1mem id hdrop)
            · intro hroot
              exact absurd ((hkeys id).mpr (Or.inl (inv1 id hroot)))
                (fun _ => hfresh2 id (inv1 id hroot) hnewm)
          · rw [mapLookup_insert_self]
            constructor
            · intro hnone; cases hnone
            · intro hroot
              exact absurd (inv1 _ hroot) (fun hold => hfresh2 _ hold hlastmem)
    | none =>
      have hS : result.segments = [] := List.getLast?_eq_none_iff.mp hlast
      have hadj : (applyTraversal st result t').adjacency_list = st.adjacency_list := by
        simp only [applyTraversal, hseen, hS, windowsEdges, List.foldl_nil,
          List.getLast?_nil]
      have hroots : (applyTraversal st result t').stack_roots = st.stack_roots := by
        simp only [applyTraversal, hseen, hlast]
      refine ⟨?_, ?_, ?_, newInv4⟩
      · intro id hid
        rw [hroots] at hid
        exact (hkeys id).mpr (Or.inl (inv1 id hid))
      · intro id hid
        rw [hadj] at hid
        exact (hkeys id).mpr (Or.inl (inv2 id hid))
      · intro id hid
        rw [hadj, hroots]
        rcases (hkeys id).mp hid with hold | hnewm
        · exact inv3 id hold
        · rw [hS] at hnewm
          cases hnewm
  | none =>
    cases hlast : result.segments.getLast? with
    | some last_seg =>
      have hadj : (applyTraversal st result t').adjacency_list =
          (windowsEdges result.segments).foldl
            (fun m e => mapInsert m e.1 e.2) st.adjacency_list := by
        simp only [applyTraversal, hseen, hlast]
      have hroots : (applyTraversal st result t').stack_roots =
          insert last_seg.change_id st.stack_roots := by
        simp only [applyTraversal, hseen, hlast]
      have hlastmem : last_seg.change_id ∈ result.segments.map (·.change_id) :=
        List.mem_map.mpr ⟨last_seg, List.mem_of_mem_getLast? hlast, rfl⟩
      have hlastids : (result.segments.map (·.change_id)).getLast? =
          some last_seg.change_id := getLast_map_cid _ _ hlast
      refine ⟨?_, ?_, ?_, newInv4⟩
      · intro id hid
        rw [hroots] at hid
        rcases Finset.mem_insert.mp hid with rfl | hid2
        · exact (hkeys _).mpr (Or.inr hlastmem)
        · exact (hkeys id).mpr (Or.inl (inv1 id hid2))
      · intro id hid
        rw [hadj] at hid
        rcases hadj1keys id hid with h | h
        · exact (hkeys id).mpr (Or.inl (inv2 id h))
        · exact (hkeys id).mpr (Or.inr h)
      · intro id hid
        rw [hadj, hroots]
        rcases (hkeys id).mp hid with hold | hnewm
        · have hne : id ≠ last_seg.change_id := by
            intro heq
            exact hfresh2 id hold (heq ▸ hlastmem)
          rw [hadj1none id (hfresh2 id hold)]
          rw [Finset.mem_insert]
          constructor
          · intro hnone
            exact Or.inr ((inv3 id hold).mp hnone)
          · rintro (rfl | hroot)
            · exact absurd hlastmem (hfresh2 _ hold)
            · exact (inv3 id hold).mpr hroot
        · rcases mem_split_last _ _ hlastids id hnewm with hdrop | rfl
          · have hne : id ≠ last_seg.change_id := by
              intro heq
              exact last_not_dropLast _ _ hids hlastids (heq ▸ hdrop)
            rw [Finset.mem_insert]
            constructor
            · intro hnone
              exact absurd hnone (hadj1mem id hdrop)
            · rintro (heq | hroot)
              · exact absurd heq hne
              · exact absurd hnewm (hfresh2 id (inv1 id hroot))
          · have hnotdrop : last_seg.change_id ∉
                (result.segments.map (·.change_id)).dropLast :=
              last_not_dropLast _ _ hids hlastids
            have hnotold : last_seg.change_id ∉ st.segments.map (·.1) := by
              intro hold
              exact hfresh2 _ hold hlastmem
            have he1 : mapLookup ((windowsEdges result.segments).foldl
                (fun m e => mapInsert m e.1 e.2) st.adjacency_list)
                last_seg.change_id = mapLookup st.adjacency_list last_seg.change_id := by
              refine foldInsert_lookup_none (fun e : String × String => e.1) (fun e : String × String => e.2) _ _ _ ?_
              rw [windowsEdges_keys]
              exact hnotdrop
            have he2 : mapLookup st.adjacency_list last_seg.change_id = none := by
              rw [mapLookup_eq_none_iff]
              intro hmem
              exact hnotold (inv2 _ hmem)
            rw [he1, he2]
            simp
    | none =>
      have hS : result.segments = [] := List.getLast?_eq_none_iff.mp hlast
      have hadj : (applyTraversal st result t').adjacency_list = st.adjacency_list := by
        simp only [applyTraversal, hseen, hS, windowsEdges, List.foldl_nil,
          List.getLast?_nil]
      have hroots : (applyTraversal st result t').stack_roots = st.stack_roots := by
        simp only [applyTraversal, hseen, hlast]
      refine ⟨?_, ?_, ?_, newInv4⟩
      · intro id hid
        rw [hroots] at hid
        exact (hkeys id).mpr (Or.inl (inv1 id hid))
      · intro id hid
        rw [hadj] at hid
        exact (hkeys id).mpr (Or.inl (inv2 id hid))
      · intro id hid
        rw [hadj, hroots]
        rcases (hkeys id).mp hid with hold | hnewm
        · exact inv3 id hold
        · rw [hS] at hnewm
          cases hnewm

/-- Helper: the bookmark loop of `build_change_graph` preserves the builder
invariants, given a consistent and duplicate-free jj log oracle. -/
theorem buildLoop_inv (users : Finset String) (vcsLog : String → List LogEntry)
    (hconsist : ∀ b1 b2 c1 c2, c1 ∈ vcsLog b1 → c2 ∈ vcsLog b2 →
      c1.change_id = c2.change_id → c1 = c2)
    (hnodup : ∀ cid, ((vcsLog cid).map (·.change_id)).Nodup) :
    ∀ (bms : List Bookmark) (st st' : BuildState),
      buildLoop vcsLog users bms st = .ok st' →
      ((∀ id, id ∈ st.stack_roots → id ∈ st.segments.map (·.1)) ∧
        (∀ id, id ∈ st.adjacency_list.map (·.1) → id ∈ st.segments.map (·.1)) ∧
        (∀ id, id ∈ st.segments.map (·.1) →
          (mapLookup st.adjacency_list id = none ↔ id ∈ st.stack_roots)) ∧
        (∀ id seg, (id, seg) ∈ st.segments → seg.bookmark_names ≠ [] ∧
          (∀ n ∈ seg.bookmark_names, n ∈ st.fully_collected) ∧
          ∃ c, (∃ b2, c ∈ vcsLog b2) ∧ c.change_id = id ∧
            seg.bookmark_names = c.local_bookmark_names.filter (fun n => n ∈ users))) →
      ((∀ id, id ∈ st'.stack_roots → id ∈ st'.segments.map (·.1)) ∧
        (∀ id, id ∈ st'.adjacency_list.map (·.1) → id ∈ st'.segments.map (·.1)) ∧
        (∀ id, id ∈ st'.segments.map (·.1) →
          (mapLookup st'.adjacency_list id = none ↔ id ∈ st'.stack_roots)) ∧
        (∀ id seg, (id, seg) ∈ st'.segments → seg.bookmark_names ≠ [] ∧
          (∀ n ∈ seg.bookmark_names, n ∈ st'.fully_collected) ∧
          ∃ c, (∃ b2, c ∈ vcsLog b2) ∧ c.change_id = id ∧
            seg.bookmark_names = c.local_bookmark_names.filter (fun n => n ∈ users))) := by
  intro bms
  induction bms with
  | nil =>
    intro st st' h hinv
    simp only [buildLoop, Except.ok.injEq] at h
    rw [← h]
    exact hinv
  | cons bm rest ih =>
    intro st st' h hinv
    simp only [buildLoop] at h
    by_cases hfc : bm.name ∈ st.fully_collected
    · rw [if_pos hfc] at h
      exact ih st st' h hinv
    · rw [if_neg hfc] at h
      cases ht : traverse_and_discover_segments bm (vcsLog bm.commit_id)
          st.fully_collected st.tainted_change_ids users with
      | error e =>
        rw [ht] at h
        cases h
      | ok p =>
        obtain ⟨result, t'⟩ := p
        rw [ht] at h
        simp only [] at h
        by_cases hex : result.excluded = true
        · rw [if_pos hex] at h
          refine ih _ st' h ⟨hinv.1, hinv.2.1, hinv.2.2.1, ?_⟩
          intro id seg hm
          exact hinv.2.2.2 id seg hm
        · rw [if_neg hex] at h
          obtain ⟨nv, hmap, hsub, hqv⟩ := traverseLoop_ok_views bm.name
            st.fully_collected users (vcsLog bm.commit_id) [] none []
            st.tainted_change_ids result t' ht (by
              cases hb : result.excluded
              · rfl
              · exact absurd hb hex)
          simp only [List.nil_append, Option.toList_none, List.append_nil,
            List.map_nil] at hmap
          have hviews : ∀ s ∈ result.segments, segView s ∈ nv := by
            intro s hs
            rw [← hmap]
            exact List.mem_map_of_mem _ hs
          have hidseq : result.segments.map (·.change_id) = nv.map Prod.fst := by
            rw [← hmap, List.map_map]
            rfl
          have hids : (result.segments.map (·.change_id)).Nodup := by
            rw [hidseq]
            exact hsub.nodup (hnodup bm.commit_id)
          have hq : ∀ s ∈ result.segments, s.bookmark_names ≠ [] ∧
              ∃ c, (∃ b2, c ∈ vcsLog b2) ∧ c.change_id = s.change_id ∧
                s.bookmark_names = c.local_bookmark_names.filter (fun n => n ∈ users) := by
            intro s hs
            obtain ⟨h1, _, c, hc, h3, h4⟩ := hqv (segView s) (hviews s hs)
            exact ⟨h1, c, ⟨bm.commit_id, hc⟩, h3, h4⟩
          have hnotfc : ∀ s ∈ result.segments, ∀ n ∈ s.bookmark_names,
              n ∉ st.fully_collected := by
            intro s hs
            obtain ⟨_, h2, _⟩ := hqv (segView s) (hviews s hs)
            exact h2
          have hfresh : ∀ s ∈ result.segments,
              s.change_id ∉ st.segments.map (·.1) := by
            intro s hs hold
            obtain ⟨p2, hp2, hp2eq⟩ := List.mem_map.mp hold
            obtain ⟨hne, hsub2, c_old, ⟨b2, hc_old⟩, hcid_old, hnames_old⟩ :=
              hinv.2.2.2 p2.1 p2.2 (by
                rw [show p2 = (p2.1, p2.2) from rfl] at hp2
                exact hp2)
            obtain ⟨_, _, c_new, hc_new, hcid_new, hnames_new⟩ :=
              hqv (segView s) (hviews s hs)
            have hceq : c_new = c_old := hconsist bm.commit_id b2 c_new c_old
              hc_new hc_old (by rw [hcid_new, hcid_old]; exact hp2eq ▸ rfl)
            have hnames : s.bookmark_names = p2.2.bookmark_names := by
              rw [show s.bookmark_names = (segView s).2 from rfl, hnames_new, hceq,
                ← hnames_old]
            obtain ⟨n, hn⟩ := List.exists_mem_of_ne_nil _ hne
            have hn1 : n ∈ s.bookmark_names := by rw [hnames]; exact hn
            exact hnotfc s hs n hn1 (hsub2 n hn)
          exact ih _ st' h (applyTraversal_inv users vcsLog st result t'
            hinv.1 hinv.2.1 hinv.2.2.1 hinv.2.2.2 hids hfresh hq)

/-- C9: in every successfully built graph, `stack_leaves` is exactly the set
of segment change ids that never occur as a parent value in the adjacency
map, and `stack_roots` — although recorded during traversal on reaching
trunk — is exactly the set of segment change ids with no outgoing adjacency
edge; the jj log oracle is assumed consistent (entries with equal change ids
are equal) and duplicate-free per log. -/
theorem build_leaves_roots_spec (bookmarks : List Bookmark)
    (vcsLog : String → List LogEntry) (g : ChangeGraph)
    (hconsist : ∀ b1 b2 c1 c2, c1 ∈ vcsLog b1 → c2 ∈ vcsLog b2 →
      c1.change_id = c2.change_id → c1 = c2)
    (hnodup : ∀ cid, ((vcsLog cid).map (·.change_id)).Nodup)
    (hbuild : build_change_graph bookmarks vcsLog = .ok g) :
    (∀ id, id ∈ g.stack_leaves ↔
      id ∈ g.segments.map (·.1) ∧ id ∉ g.adjacency_list.map (·.2)) ∧
    (∀ id, id ∈ g.stack_roots ↔
      id ∈ g.segments.map (·.1) ∧ mapLookup g.adjacency_list id = none) := by
  rw [build_change_graph] at hbuild
  cases hloop : buildLoop vcsLog ((bookmarks.map (·.name)).toFinset) bookmarks
      ⟨∅, [], [], ∅, ∅, 0⟩ with
  | error e =>
    rw [hloop] at hbuild
    cases hbuild
  | ok st =>
    rw [hloop] at hbuild
    simp only [Except.ok.injEq] at hbuild
    obtain ⟨inv1, inv2, inv3, _⟩ := buildLoop_inv ((bookmarks.map (·.name)).toFinset)
      vcsLog hconsist hnodup bookmarks ⟨∅, [], [], ∅, ∅, 0⟩ st hloop
      ⟨by simp, by simp, by simp, by simp⟩
    rw [← hbuild]
    constructor
    · intro id
      simp only [List.mem_toFinset, List.mem_filter, decide_eq_true_eq]
    · intro id
      constructor
      · intro hid
        exact ⟨inv1 id hid, (inv3 id (inv1 id hid)).mpr hid⟩
      · rintro ⟨hkeys, hnone⟩
        exact (inv3 id hkeys).mp hnone

/-- C9 witness: the leaf/root characterisation instantiated on a one-bookmark,
one-commit repository. -/
theorem build_leaves_roots_spec_witness :
    ∃ g, build_change_graph [⟨"b", "commit1", "ch1", true⟩]
        (fun _ => [⟨"commit1", "ch1", "d", [], "a", ["b"], []⟩]) = .ok g ∧
      ((∀ id, id ∈ g.stack_leaves ↔
        id ∈ g.segments.map (·.1) ∧ id ∉ g.adjacency_list.map (·.2)) ∧
       (∀ id, id ∈ g.stack_roots ↔
        id ∈ g.segments.map (·.1) ∧ mapLookup g.adjacency_list id = none)) := by
  refine ⟨_, rfl, ?_⟩
  exact build_leaves_roots_spec [⟨"b", "commit1", "ch1", true⟩]
    (fun _ => [⟨"commit1", "ch1", "d", [], "a", ["b"], []⟩]) _
    (fun b1 b2 c1 c2 h1 h2 _ => by
      simp only [List.mem_singleton] at h1 h2
      rw [h1, h2])
    (fun _ => by show (["ch1"] : List String).Nodup; decide)
    rfl

end Stakk
